import Mathlib

/-!
Verification of the nabatshy tracing backend (Go) against its
natural-language specification.

The development shallowly embeds the Go source:

* machine integers (`int64`, `int32`, `uint64`) are modelled as `Int`/`Nat`;
  all values arising in the claims are far below overflow, which is noted
  where it matters;
* `time.Time` and `time.Duration` are modelled as `Int` nanoseconds
  (`time.Time.Unix()` is floor division by 10^9, Go's integer `/` and `%`
  are truncated division, written `Int.tdiv`/`Int.tmod`);
* Go strings are modelled as Lean `String`, with the handful of
  `strings.*` library functions re-implemented structurally over
  `List Char` so that concrete evaluations reduce in the kernel;
* the ClickHouse store is modelled as a list of `denormalized_span` rows
  (schema from the DDL comment in db/clickhouse.go); store-side SQL
  operators used by the queries (`has`, `toStartOfInterval`,
  `fromUnixTimestamp64Nano`, comparison filters, ORDER BY, LIMIT/OFFSET)
  are given their documented semantics;
* fallible store interaction (prepared batches) is modelled by an
  explicit error-injection parameter, so that both the success path and
  the failure path of the Go code are visible.
-/


/-! ### Go string primitives, re-implemented structurally -/
/-- Whitespace test used by Go `strings.TrimSpace` / `strings.Fields`
(`unicode.IsSpace`).  The ASCII whitespace characters plus NEL and NBSP are
covered; other Unicode space runes do not occur in any input considered
here. -/
def goIsSpace (c : Char) : Bool :=
  c.toNat ∈ [32, 9, 10, 11, 12, 13, 0x85, 0xA0]

/-- Character-list core of Go `strings.TrimSpace`. -/
def goTrimSpaceCL (cs : List Char) : List Char :=
  ((cs.dropWhile goIsSpace).reverse.dropWhile goIsSpace).reverse

/-- Go `strings.TrimSpace`. -/
def goTrimSpace (s : String) : String :=
  String.mk (goTrimSpaceCL s.data)

/-- Split a character list at the first occurrence of the (non-empty)
separator `sep`: returns the part before and the part after the separator,
or `none` when `sep` does not occur.  This is the core of Go
`strings.Contains` and `strings.SplitN(s, sep, 2)`. -/
def startsWithCL : List Char → List Char → Bool
  | [], _ => true
  | _ :: _, [] => false
  | x :: xs, y :: ys => x == y && startsWithCL xs ys

def breakAtCL (sep : List Char) : List Char → Option (List Char × List Char)
  | [] => none
  | c :: cs =>
    if startsWithCL sep (c :: cs) then some ([], (c :: cs).drop sep.length)
    else
      match breakAtCL sep cs with
      | some (l, r) => some (c :: l, r)
      | none => none

/-- Go `strings.Contains` (for a non-empty substring). -/
def goContains (s sub : String) : Bool :=
  (breakAtCL sub.data s.data).isSome

/-- Go `strings.SplitN(s, sep, 2)` for a non-empty separator: at most two
parts, the second being the whole remainder. -/
def goSplitN2 (s sep : String) : List String :=
  match breakAtCL sep.data s.data with
  | some (l, r) => [String.mk l, String.mk r]
  | none => [s]

/-- Character-list core of Go `strings.Split(s, ",")` (the only full split
the source performs).  Always returns at least one part. -/
def goSplitCommaCL : List Char → List (List Char)
  | [] => [[]]
  | c :: cs =>
    if c = ',' then [] :: goSplitCommaCL cs
    else
      match goSplitCommaCL cs with
      | [] => [[c]]
      | p :: ps => (c :: p) :: ps

/-- Go `strings.Split(s, ",")`. -/
def goSplitComma (s : String) : List String :=
  (goSplitCommaCL s.data).map String.mk

/-- Accumulator-style core of Go `strings.Fields`: maximal runs of
non-whitespace characters. -/
def goFieldsAux : List Char → List Char → List (List Char)
  | [], acc => if acc.isEmpty then [] else [acc.reverse]
  | c :: cs, acc =>
    if goIsSpace c then
      if acc.isEmpty then goFieldsAux cs [] else acc.reverse :: goFieldsAux cs []
    else goFieldsAux cs (c :: acc)

/-- Go `strings.Fields`. -/
def goFields (s : String) : List String :=
  (goFieldsAux s.data []).map String.mk

/-- Decimal digit value of a character, `none` for non-digits. -/
def digitVal (c : Char) : Option Nat :=
  if 48 ≤ c.toNat ∧ c.toNat ≤ 57 then some (c.toNat - 48) else none

/-- Digit-run accumulator for Go `strconv.Atoi`: `none` as soon as a
non-digit appears. -/
def goAtoiDigits : List Char → Nat → Option Nat
  | [], acc => some acc
  | c :: cs, acc =>
    match digitVal c with
    | some d => goAtoiDigits cs (acc * 10 + d)
    | none => none

/-- Go `strconv.Atoi`: optional sign followed by at least one decimal
digit.  Arbitrary precision is used; the 64-bit overflow error of the Go
function cannot trigger on any input considered here. -/
def goAtoiCL : List Char → Option Int
  | [] => none
  | c :: cs =>
    if c = '-' then
      if cs.isEmpty then none else (goAtoiDigits cs 0).map (fun n => -(n : Int))
    else if c = '+' then
      if cs.isEmpty then none else (goAtoiDigits cs 0).map (fun n => (n : Int))
    else (goAtoiDigits (c :: cs) 0).map (fun n => (n : Int))

def goAtoi (s : String) : Option Int :=
  goAtoiCL s.data

/-- ASCII core of Go `strings.ToLower` (the only characters reaching it
here are ASCII letters of interval units). -/
def goToLower (s : String) : String :=
  String.mk (s.data.map (fun c =>
    if 'A' ≤ c ∧ c ≤ 'Z' then Char.ofNat (c.toNat + 32) else c))

/-! ### The attribute-predicate mini-language (api/service.go,
`parseAttributeQuery`) -/
/-- AttributeQuery represents a parsed key=value or key!=value pair
(api/service.go). -/
structure AttributeQuery where
  Key : String
  Value : String
  Operator : String
deriving DecidableEq, Repr

/-- Body of the per-pair loop of `parseAttributeQuery`: starting from the
already collected pairs `attrs`, process one comma-separated fragment. -/
def parseAttributePair (attrs : List AttributeQuery) (pair0 : String) :
    List AttributeQuery :=
  let pair := goTrimSpace pair0
  if goContains pair "!=" then
    match goSplitN2 pair "!=" with
    | [k, v] => attrs ++ [⟨goTrimSpace k, goTrimSpace v, "!="⟩]
    | _ => attrs
  else if goContains pair "=" then
    match goSplitN2 pair "=" with
    | [k, v] => attrs ++ [⟨goTrimSpace k, goTrimSpace v, "="⟩]
    | _ => attrs
  else attrs

/-- parseAttributeQuery parses a query string like
"attribute1=value1,attribute2!=value2" (api/service.go).  The Go function
returns a nil slice when the query does not match this format; `none`
models nil. -/
def parseAttributeQuery (query : String) : Option (List AttributeQuery) :=
  if query = "" then none
  else if !(goContains query "=") then none
  else
    let pairs := goSplitComma query
    let attrs := pairs.foldl parseAttributePair []
    if attrs.length = pairs.length then some attrs else none

/-! ### Time model and the bucket-interval machinery (utils/utils.go) -/
/-- Nanoseconds per second; Go `time.Second`. -/
def nsPerSecond : Int := 1000000000

/-- Go `utils.DateRange`: absolute instants modelled as nanoseconds since
the Unix epoch (`time.Time` keeps integral seconds plus a nanosecond
offset in `[0, 1e9)`, which is exactly an integer nanosecond count). -/
structure DateRange where
  Start : Int
  End : Int
deriving DecidableEq, Repr

/-- Go `time.Time.Unix()`: the (floor) integral second of an instant. -/
def unixSec (tNs : Int) : Int :=
  Int.fdiv tNs nsPerSecond

/-- Go `utils.ParseInterval`: parse an interval SQL fragment
`"<int> <unit>"` into a duration (nanoseconds).  `strconv.Atoi` overflow
aside (unreachable here), this is the exact decision structure of the
source. -/
def ParseInterval (interval : String) : Option Int :=
  match goFields interval with
  | [countStr, unitStr] =>
    match goAtoi countStr with
    | none => none
    | some n =>
      if n ≤ 0 then none
      else
        match goToLower unitStr with
        | "second" => some (n * nsPerSecond)
        | "seconds" => some (n * nsPerSecond)
        | "minute" => some (n * 60 * nsPerSecond)
        | "minutes" => some (n * 60 * nsPerSecond)
        | "hour" => some (n * 3600 * nsPerSecond)
        | "hours" => some (n * 3600 * nsPerSecond)
        | "day" => some (n * 86400 * nsPerSecond)
        | "days" => some (n * 86400 * nsPerSecond)
        | _ => none
  | _ => none

/-- Go `utils.AlignToInterval`: `secs := int64(interval.Seconds())`,
`aligned := unix - unix % secs` (Go `%` is truncated remainder, hence
`Int.tmod`), re-interpreted as a whole-second instant.  The float
round-trip in `interval.Seconds()` is exact for every duration
`ParseInterval` can produce in practice (whole seconds below 2^53). -/
def AlignToInterval (tNs intervalNs : Int) : Int :=
  ((unixSec tNs) - Int.tmod (unixSec tNs) (Int.tdiv intervalNs nsPerSecond)) * nsPerSecond

/-- Local `secs` of Go `utils.GetIntervalFromDateRange`:
`max(int(total.Seconds())/numOfBuckets, 1)` with `numOfBuckets = 15`.
`int(total.Seconds())` truncates toward zero, hence `Int.tdiv`; the float
division is exact for every range below 2^53 nanoseconds of width. -/
def getIntervalSecs (dr : DateRange) : Int :=
  max (Int.tdiv (Int.tdiv (dr.End - dr.Start) nsPerSecond) 15) 1

/-- Go `utils.GetIntervalFromDateRange`: aims at 15 buckets, rendered as
`"<secs> second"` via `fmt.Sprintf`. -/
def GetIntervalFromDateRange (dr : DateRange) : String :=
  toString (getIntervalSecs dr) ++ " second"

/-! ### Gap padding (utils/utils.go, `PadQueryResult`) -/
/-- Go `utils.TimePercentile`: one padded series point; the timestamp is
an instant (ns), the value a `float64`. -/
structure TimePercentile where
  Timestamp : Int
  Value : Float

/-- One Go map assignment `m[k] = v`: overwrite the binding when the key
is present, append it otherwise.  (Go map iteration order is
unspecified; an association list in first-insertion order is one
admissible representative, and nothing proved here depends on the
order.) -/
def goMapSet (m : List (Int × Float)) (k : Int) (v : Float) : List (Int × Float) :=
  if m.any (fun p => p.1 == k) then
    m.map (fun p => if p.1 == k then (k, v) else p)
  else m ++ [(k, v)]

/-- The `vals` map of `PadQueryResult`: scanned rows inserted one by
one. -/
def buildVals (rows : List (Int × Float)) : List (Int × Float) :=
  rows.foldl (fun m r => goMapSet m r.1 r.2) []

/-- Go map read `vals[ts]` with the zero value `0.0` for absent keys. -/
def mapGetD (m : List (Int × Float)) (k : Int) : Float :=
  match m.find? (fun p => p.1 == k) with
  | some p => p.2
  | none => 0

/-- The padding loop of `PadQueryResult` (and, inlined, of
`GetAvgDuration`): `for ts := aligned; !ts.After(end); ts = ts.Add(step)`.
The loop terminates because the step is positive, which is recorded as an
explicit hypothesis. -/
def padLoop (vals : List (Int × Float)) (stepNs endNs : Int)
    (hstep : 0 < stepNs) (ts : Int) : List TimePercentile :=
  if _h : ts > endNs then []
  else ⟨ts, mapGetD vals ts⟩ :: padLoop vals stepNs endNs hstep (ts + stepNs)
termination_by (endNs + stepNs - ts).toNat
decreasing_by simp_wf; omega

/-- Go `utils.PadQueryResult`: build the `vals` map from the scanned
rows, parse the interval, align the range start, and emit one point per
bucket boundary (zero-filled).  `none` models the error return on an
unparseable interval; the positivity guard has no Go counterpart but is
provably never taken (`parseInterval_pos`) and only feeds the loop its
termination argument. -/
def PadQueryResult (rows : List (Int × Float)) (intervalSQL : String)
    (dateRange : DateRange) : Option (List TimePercentile) :=
  match ParseInterval intervalSQL with
  | none => none
  | some step =>
    if h : 0 < step then
      some (padLoop (buildVals rows) step dateRange.End h
        (AlignToInterval dateRange.Start step))
    else none

/-! ### Identifier encoding (collector, `encodeBytes` =
`base64.StdEncoding.EncodeToString`) -/
/-- The standard base64 alphabet. -/
def base64Alphabet : List Char :=
  "ABCDEFGHIJKLMNOPQRSTUVWXYZabcdefghijklmnopqrstuvwxyz0123456789+/".data

/-- Character for a 6-bit group. -/
def base64Char (i : Nat) : Char :=
  base64Alphabet.getD i '='

/-- Standard base64 encoding with padding over byte triples (bytes are
naturals below 256). -/
def base64Chunks : List Nat → List Char
  | [] => []
  | [a] =>
    [base64Char (a / 4), base64Char (a % 4 * 16), '=', '=']
  | [a, b] =>
    [base64Char (a / 4), base64Char (a % 4 * 16 + b / 16),
     base64Char (b % 16 * 4), '=']
  | a :: b :: c :: rest =>
    base64Char (a / 4) :: base64Char (a % 4 * 16 + b / 16) ::
    base64Char (b % 16 * 4 + c / 64) :: base64Char (c % 64) ::
    base64Chunks rest

/-- Go `encodeBytes` (collector and api): `base64.StdEncoding.EncodeToString`. -/
def encodeBytes (bs : List Nat) : String :=
  String.mk (base64Chunks bs)

/-! ### OTLP payload model and attribute flattening (collector,
src/unnamed/part_009) -/
/-- OTLP `AnyValue`, flat variants.  The nested `array`/`kvlist`
variants of the source's `extractAttributes` (comma-joining and JSON
encoding) are not modelled: no claim depends on them, and every payload
considered here uses flat values. -/
inductive AnyValue where
  | stringValue (s : String)
  | intValue (i : Int)
  | doubleValue (f : Float)
  | boolValue (b : Bool)
  | bytesValue (bs : List Nat)

/-- OTLP `KeyValue`; a missing value (`kv.GetValue() == nil`) drops the
entry. -/
structure KeyValue where
  key : String
  value : Option AnyValue

/-- One Go map assignment for string maps, as in `goMapSet`. -/
def goMapSetS (m : List (String × String)) (k v : String) :
    List (String × String) :=
  if m.any (fun p => p.1 == k) then
    m.map (fun p => if p.1 == k then (k, v) else p)
  else m ++ [(k, v)]

/-- Go `extractAttributes` (collector): flatten OTLP attributes into a
string-to-string map.  `strconv.FormatInt n 10` and
`strconv.FormatBool` agree with `toString`; for `float64` the rendering
(`strconv.FormatFloat 'f' -1 64`) is approximated by `toString`, which
no claim exercises.  The map is represented as an association list in
first-insertion order (Go map iteration order is unspecified; only
membership matters downstream). -/
def extractAttributes (attrs : List KeyValue) : List (String × String) :=
  attrs.foldl (fun m kv =>
    match kv.value with
    | none => m
    | some (.stringValue s) => goMapSetS m kv.key s
    | some (.intValue i) => goMapSetS m kv.key (toString i)
    | some (.doubleValue f) => goMapSetS m kv.key (toString f)
    | some (.boolValue b) => goMapSetS m kv.key (toString b)
    | some (.bytesValue bs) => goMapSetS m kv.key (encodeBytes bs)) []

/-- OTLP span event. -/
structure OtlpEvent where
  timeUnixNano : Int
  name : String
  attributes : List KeyValue

/-- OTLP span; identifiers are raw byte strings. -/
structure OtlpSpan where
  traceId : List Nat
  spanId : List Nat
  parentSpanId : List Nat
  flags : Int
  name : String
  startTimeUnixNano : Int
  endTimeUnixNano : Int
  attributes : List KeyValue
  events : List OtlpEvent

/-- OTLP instrumentation scope (only the name is read). -/
structure OtlpScope where
  name : String

/-- OTLP `ScopeSpans` group. -/
structure ScopeSpans where
  scope : OtlpScope
  spans : List OtlpSpan

/-- OTLP resource (only its attributes are read). -/
structure OtlpResource where
  attributes : List KeyValue

/-- OTLP `ResourceSpans` group. -/
structure ResourceSpans where
  resource : OtlpResource
  schemaUrl : String
  scopeSpans : List ScopeSpans

/-- OTLP `ExportTraceServiceRequest`. -/
structure ExportTraceServiceRequest where
  resourceSpans : List ResourceSpans

/-! ### Canonical span and the denormalised store row (utils types,
utils/utils.go `InsertDenormalizedSpans`, DDL in db/clickhouse.go) -/
/-- Go `utils.EventAttribute`. -/
structure EventAttribute where
  Key : String
  Value : String

/-- Go `utils.Event` (the variant carrying attributes, as used by the
cited `ingestTrace`). -/
structure Event where
  TimeUnixNano : Int
  Name : String
  Attributes : List EventAttribute

/-- Go `utils.ResourceAttribute` (also reused for span attributes). -/
structure ResourceAttribute where
  Key : String
  Value : String

/-- Go `utils.Span`, the canonical span record handed to the store
gateway.  `ScopeID`/`ResourceID` are `uuid.UUID` in Go, opaque strings
here; the ingest path leaves them zero-valued. -/
structure Span where
  TraceID : String
  SpanID : String
  ParentSpanID : String
  Flags : Int
  Name : String
  StartTimeUnixNano : Int
  EndTimeUnixNano : Int
  ScopeID : String
  ScopeName : String
  ResourceID : String
  ResourceSchemaURL : String
  ResourceAttributes : List ResourceAttribute
  SpanAttributes : List ResourceAttribute
  Events : List Event

/-- One row of the `denormalized_span` table, columns in the order of
the `batch.Append` call in `InsertDenormalizedSpans`
(utils/utils.go). -/
structure DenormRow where
  trace_id : String
  span_id : String
  parent_span_id : String
  flags : Int
  name : String
  start_time_unix_nano : Int
  end_time_unix_nano : Int
  scope_id : String
  scope_name : String
  resource_id : String
  resource_schema_url : String
  resource_attributes_key : List String
  resource_attributes_value : List String
  event_values : List Int
  event_keys : List String
  span_attributes_key : List String
  span_attributes_value : List String
deriving DecidableEq, Repr

/-- The `duration_ns` column is `MATERIALIZED (end_time_unix_nano -
start_time_unix_nano)` in the table DDL (db/clickhouse.go). -/
def DenormRow.duration_ns (r : DenormRow) : Int :=
  r.end_time_unix_nano - r.start_time_unix_nano

/-- The per-span extraction loop of `InsertDenormalizedSpans`: parallel
key/value arrays for resource and span attributes, parallel
name/timestamp arrays for events, appended in the `batch.Append` column
order. -/
def spanToRow (s : Span) : DenormRow where
  trace_id := s.TraceID
  span_id := s.SpanID
  parent_span_id := s.ParentSpanID
  flags := s.Flags
  name := s.Name
  start_time_unix_nano := s.StartTimeUnixNano
  end_time_unix_nano := s.EndTimeUnixNano
  scope_id := s.ScopeID
  scope_name := s.ScopeName
  resource_id := s.ResourceID
  resource_schema_url := s.ResourceSchemaURL
  resource_attributes_key := s.ResourceAttributes.map (fun a => a.Key)
  resource_attributes_value := s.ResourceAttributes.map (fun a => a.Value)
  event_values := s.Events.map (fun e => e.TimeUnixNano)
  event_keys := s.Events.map (fun e => e.Name)
  span_attributes_key := s.SpanAttributes.map (fun a => a.Key)
  span_attributes_value := s.SpanAttributes.map (fun a => a.Value)

/-- Failure injection for the prepared-batch store interaction: the
three fallible steps of `InsertDenormalizedSpans`. -/
inductive BatchFailure where
  | prepare (e : String)
  | append (e : String)
  | send (e : String)

/-- Go `utils.InsertDenormalizedSpans` over the store model: an empty
batch returns nil before any store interaction; otherwise the batch
either fails as injected (no rows committed — the batch is abandoned
whole) or appends one row per span. -/
def InsertDenormalizedSpans (fail : Option BatchFailure)
    (store : List DenormRow) (spans : List Span) :
    Except String (List DenormRow) :=
  if spans.isEmpty then .ok store
  else
    match fail with
    | some (.prepare e) => .error ("failed to prepare batch: " ++ e)
    | some (.append e) => .error ("failed to append span: " ++ e)
    | some (.send e) => .error ("failed to send batch: " ++ e)
    | none => .ok (store ++ spans.map spanToRow)

/-- The per-span body of `ingestTrace` (collector, src/unnamed/part_009):
identifiers base64-encoded, events and attributes flattened, scope name
attached, `ScopeID`/`ResourceID` left at their zero value. -/
def mkIngestSpan (resourceAttrs : List (String × String))
    (schemaUrl scopeName : String) (sp : OtlpSpan) : Span where
  TraceID := encodeBytes sp.traceId
  SpanID := encodeBytes sp.spanId
  ParentSpanID := encodeBytes sp.parentSpanId
  Flags := sp.flags
  Name := sp.name
  StartTimeUnixNano := sp.startTimeUnixNano
  EndTimeUnixNano := sp.endTimeUnixNano
  ScopeID := ""
  ScopeName := scopeName
  ResourceID := ""
  ResourceSchemaURL := schemaUrl
  ResourceAttributes := resourceAttrs.map (fun p => ⟨p.1, p.2⟩)
  SpanAttributes := (extractAttributes sp.attributes).map (fun p => ⟨p.1, p.2⟩)
  Events := sp.events.map (fun e =>
    ⟨e.timeUnixNano, e.name,
      (extractAttributes e.attributes).map (fun p => ⟨p.1, p.2⟩)⟩)

/-- Go `ingestTrace` (collector, src/unnamed/part_009): nested loops
over resource-spans and scope-spans groups, building the span batch for
each group and inserting it; the first store error aborts the whole
ingest. -/
def ingestTrace (fail : Option BatchFailure)
    (req : ExportTraceServiceRequest) (store : List DenormRow) :
    Except String (List DenormRow) :=
  req.resourceSpans.foldlM (fun st rs =>
    rs.scopeSpans.foldlM (fun st2 ss =>
      InsertDenormalizedSpans fail st2
        (ss.spans.map (mkIngestSpan (extractAttributes rs.resource.attributes)
          rs.schemaUrl ss.scope.name))) st) store

/-! ### Trace details (api/service.go, `GetTraceDetails`) -/
/-- Go `api.TraceSpan`. -/
structure TraceSpan where
  SpanID : String
  ParentSpanID : String
  Name : String
  Service : String
  StartTime : Int
  EndTime : Int
  Duration : Float

/-- Row projection of the `GetTraceDetails` SELECT: `scope_name AS
service_name`, `duration_ns / 1000000 AS duration_ms` (ClickHouse `/` is
float division). -/
def toTraceSpan (r : DenormRow) : TraceSpan where
  SpanID := r.span_id
  ParentSpanID := r.parent_span_id
  Name := r.name
  Service := r.scope_name
  StartTime := r.start_time_unix_nano
  EndTime := r.end_time_unix_nano
  Duration := Float.ofInt r.duration_ns / 1000000

/-- Go `api.GetTraceDetails` over the store model: rows with the given
`trace_id`, ordered by start time ascending (ties in unspecified
order — a stable sort is one admissible model), projected to
`TraceSpan`.  The store-error path (propagated verbatim) is not
represented: the model store always answers. -/
def GetTraceDetails (store : List DenormRow) (traceID : String) :
    List TraceSpan :=
  (List.insertionSort
    (fun r1 r2 => r1.start_time_unix_nano ≤ r2.start_time_unix_nano)
    (store.filter (fun r => r.trace_id == traceID))).map toTraceSpan

/-! ### Search (api/service.go, `SearchTraces`) -/
/-- Go `api.SortOption`. -/
structure SortOption where
  Field : String
  Order : String

/-- Go `api.SearchResult`; `ResourceAttrs` is the Go map built from the
parallel key/value arrays (later entries overwrite earlier ones). -/
structure SearchResult where
  TraceID : String
  SpanID : String
  Name : String
  Service : String
  Duration : Float
  StartTime : Int
  EndTime : Int
  ResourceAttrs : List (String × String)

/-- Row projection of the `SearchTraces` SELECT. -/
def toSearchResult (r : DenormRow) : SearchResult where
  TraceID := r.trace_id
  SpanID := r.span_id
  Name := r.name
  Service := r.scope_name
  Duration := Float.ofInt r.duration_ns / 1000000
  StartTime := r.start_time_unix_nano
  EndTime := r.end_time_unix_nano
  ResourceAttrs :=
    (r.resource_attributes_key.zip r.resource_attributes_value).foldl
      (fun m p => goMapSetS m p.1 p.2) []

/-- One attribute condition of the `SearchTraces` filter, exactly as the
goqu expressions build it; ClickHouse `has(array, x)` is array
membership.  For `=`: (resource keys contain k AND resource values
contain v) OR (span keys contain k AND span values contain v).  For
`!=`: (NOT has(resource keys, k) OR (has(resource keys, k) AND NOT
has(resource values, v))) OR (the same over span attributes) — note the
two attribute families are joined by OR. -/
def attrCondHolds (r : DenormRow) (aq : AttributeQuery) : Bool :=
  if aq.Operator == "=" then
    (r.resource_attributes_key.contains aq.Key &&
      r.resource_attributes_value.contains aq.Value) ||
    (r.span_attributes_key.contains aq.Key &&
      r.span_attributes_value.contains aq.Value)
  else if aq.Operator == "!=" then
    (!(r.resource_attributes_key.contains aq.Key) ||
      (r.resource_attributes_key.contains aq.Key &&
        !(r.resource_attributes_value.contains aq.Value))) ||
    (!(r.span_attributes_key.contains aq.Key) ||
      (r.span_attributes_key.contains aq.Key &&
        !(r.span_attributes_value.contains aq.Value)))
  else true

/-- The broad-match fallback of `SearchTraces`. -/
def broadMatchHolds (r : DenormRow) (query : String) : Bool :=
  r.name == query || r.scope_name == query || r.trace_id == query ||
  r.span_id == query ||
  r.resource_attributes_key.contains query ||
  r.resource_attributes_value.contains query ||
  r.span_attributes_key.contains query ||
  r.span_attributes_value.contains query

/-- The full WHERE clause of `SearchTraces`: the time window always,
plus — for a non-empty query — the attribute predicates ANDed (when the
query parses) or the broad match (when it does not). -/
def searchCond (dr : DateRange) (query : String) (r : DenormRow) : Bool :=
  decide (dr.Start ≤ r.start_time_unix_nano) &&
  decide (r.end_time_unix_nano ≤ dr.End) &&
  (if query == "" then true
   else match parseAttributeQuery query with
     | some attrs => attrs.all (attrCondHolds r)
     | none => broadMatchHolds r query)

/-- The ORDER BY of `SearchTraces`: field ∈ start_time | end_time |
duration with asc/desc, default start time descending. -/
def searchSortLE (sort : SortOption) (r1 r2 : DenormRow) : Bool :=
  if sort.Field == "start_time" then
    if sort.Order == "asc" then
      decide (r1.start_time_unix_nano ≤ r2.start_time_unix_nano)
    else decide (r2.start_time_unix_nano ≤ r1.start_time_unix_nano)
  else if sort.Field == "end_time" then
    if sort.Order == "asc" then
      decide (r1.end_time_unix_nano ≤ r2.end_time_unix_nano)
    else decide (r2.end_time_unix_nano ≤ r1.end_time_unix_nano)
  else if sort.Field == "duration" then
    if sort.Order == "asc" then decide (r1.duration_ns ≤ r2.duration_ns)
    else decide (r2.duration_ns ≤ r1.duration_ns)
  else decide (r2.start_time_unix_nano ≤ r1.start_time_unix_nano)

/-- The result-list pipeline of Go `api.SearchTraces`: filter by
`searchCond`, sort, apply `LIMIT pageSize OFFSET (page-1)*pageSize`,
project.  The Go function additionally returns `totalCount` and three
embedded padded series; no claim depends on them, so only the result
list is modelled. -/
def SearchTraces (store : List DenormRow) (dr : DateRange) (query : String)
    (page pageSize : Int) (sort : SortOption) : List SearchResult :=
  (((List.insertionSort (fun r1 r2 => searchSortLE sort r1 r2 = true)
      (store.filter (searchCond dr query))).drop
        ((page - 1) * pageSize).toNat).take pageSize.toNat).map toSearchResult

/-! ### Trace counts (api/service.go, `GetTraceCounts`) -/
/-- ClickHouse
`toStartOfInterval(fromUnixTimestamp64Nano(t), INTERVAL k second)`:
floor alignment to the k-second epoch grid (store-side semantics,
spec §6). -/
def toStartOfIntervalNs (tNs kSec : Int) : Int :=
  Int.fdiv (Int.fdiv tNs nsPerSecond) kSec * kSec * nsPerSecond

/-- The grouped count the `GetTraceCounts` SQL returns for bucket `ts`:
rows whose start lies in the window and falls into that bucket.  (The Go
code receives only the non-empty buckets and loads them into a map; the
map lookup with zero default is exactly this function.) -/
def bucketCount (store : List DenormRow) (dr : DateRange) (kSec ts : Int) :
    Nat :=
  (store.filter (fun r =>
    decide (dr.Start ≤ r.start_time_unix_nano) &&
    decide (r.start_time_unix_nano ≤ dr.End) &&
    decide (toStartOfIntervalNs r.start_time_unix_nano kSec = ts))).length

/-- Go `api.TimeCount` (value is `uint64`). -/
structure TimeCount where
  Timestamp : Int
  Value : Nat

/-- The padding loop of `GetTraceCounts`, identical in shape to
`padLoop` but producing counts. -/
def padLoopCount (counts : Int → Nat) (stepNs endNs : Int)
    (hstep : 0 < stepNs) (ts : Int) : List TimeCount :=
  if _h : ts > endNs then []
  else ⟨ts, counts ts⟩ :: padLoopCount counts stepNs endNs hstep (ts + stepNs)
termination_by (endNs + stepNs - ts).toNat
decreasing_by simp_wf; omega

/-- Go `api.GetTraceCounts`: choose the interval from the range, run the
grouped count, align the range start and emit one zero-filled point per
bucket boundary.  As in `PadQueryResult`, the positivity guard is
provably never taken and only feeds the termination measure. -/
def GetTraceCounts (store : List DenormRow) (dr : DateRange) :
    Option (List TimeCount) :=
  match ParseInterval (GetIntervalFromDateRange dr) with
  | none => none
  | some step =>
    if h : 0 < step then
      some (padLoopCount (bucketCount store dr (Int.tdiv step nsPerSecond))
        step dr.End h (AlignToInterval dr.Start step))
    else none

/-! ### Span details and HTTP handlers (api/service.go
`GetSpanDetails`, src/unnamed/part_014, src/unnamed/part_012,
collector/controller.go) -/
/-- Go `api.SpanDetail`, scalar and attribute fields.  The per-name
aggregate fields (`avg/p50/p90/p99`, `durationDiff`) come from a second
aggregate query that always yields one row once the span row exists;
they are irrelevant to every claim and omitted. -/
structure SpanDetail where
  SpanID : String
  TraceID : String
  ParentSpanID : String
  Name : String
  Service : String
  StartTime : Int
  EndTime : Int
  Duration : Float
  ResourceAttributes : List (String × String)
  SpanAttributes : List (String × String)

/-- Row projection of the `GetSpanDetails` SELECT. -/
def toSpanDetail (r : DenormRow) : SpanDetail where
  SpanID := r.span_id
  TraceID := r.trace_id
  ParentSpanID := r.parent_span_id
  Name := r.name
  Service := r.scope_name
  StartTime := r.start_time_unix_nano
  EndTime := r.end_time_unix_nano
  Duration := Float.ofInt r.duration_ns / 1000000
  ResourceAttributes :=
    (r.resource_attributes_key.zip r.resource_attributes_value).foldl
      (fun m p => goMapSetS m p.1 p.2) []
  SpanAttributes :=
    (r.span_attributes_key.zip r.span_attributes_value).foldl
      (fun m p => goMapSetS m p.1 p.2) []

/-- Go `api.GetSpanDetails`: the first row with the given `span_id`
(after the GROUP BY, duplicates collapse; `rows.Next()` reads the first
row), or the error `"span not found: <id>"` when there is none. -/
def GetSpanDetails (store : List DenormRow) (spanID : String) :
    Except String SpanDetail :=
  match store.filter (fun r => r.span_id == spanID) with
  | [] => .error ("span not found: " ++ spanID)
  | r :: _ => .ok (toSpanDetail r)

/-- The `getSpanDetails` HTTP handler (src/unnamed/part_014): any
service error — including "span not found" — is answered with
`http.Error(..., http.StatusInternalServerError)`, i.e. 500. -/
def getSpanDetailsHandler (store : List DenormRow) (spanID : String) :
    Nat × Option SpanDetail :=
  match GetSpanDetails store spanID with
  | .error _ => (500, none)
  | .ok d => (200, some d)

/-- The `getTraceDetails` HTTP handler (src/unnamed/part_014): the
service call cannot signal "not found" — an unknown trace id yields the
empty list, encoded with status 200. -/
def getTraceDetailsHandler (store : List DenormRow) (traceID : String) :
    Nat × List TraceSpan :=
  (200, GetTraceDetails store traceID)

/-- Outcome of an HTTP handler invocation: either a response with a
status code and content type, or a panic that aborts the request
without writing a response. -/
inductive HandlerOutcome where
  | response (status : Nat) (contentType : String)
  | panicked (msg : String)
deriving DecidableEq, Repr

/-- The post-decode tail of `ingestTraceHTTPRequest`: on an ingest error
the Go handler builds `"ingestion err: <e>\n"` and panics; on success it
marshals the empty protobuf response (which cannot fail) and answers
200. -/
def ingestAndRespond (fail : Option BatchFailure)
    (req : ExportTraceServiceRequest) (store : List DenormRow) :
    HandlerOutcome :=
  match ingestTrace fail req store with
  | .error e => .panicked ("ingestion err: " ++ e ++ "\n")
  | .ok _ => .response 200 "application/x-protobuf"

/-- Go `ingestTraceHTTPRequest` (src/unnamed/part_012 and
collector/controller.go, identical logic): method and content-type
dispatch, decode outcomes supplied as parameters (the decoders are
external libraries), then ingest. -/
def ingestTraceHTTPRequest (method contentType : String) (readOk : Bool)
    (protoResult jsonResult legacyResult :
      Except String ExportTraceServiceRequest)
    (fail : Option BatchFailure) (store : List DenormRow) :
    HandlerOutcome :=
  if method != "POST" then .response 405 "text/plain"
  else if !readOk then .response 400 "text/plain"
  else if contentType == "application/x-protobuf" then
    match protoResult with
    | .error _ => .response 400 "text/plain"
    | .ok req => ingestAndRespond fail req store
  else if contentType == "application/json" then
    match jsonResult with
    | .ok req => ingestAndRespond fail req store
    | .error _ =>
      match legacyResult with
      | .error _ => .response 400 "text/plain"
      | .ok req => ingestAndRespond fail req store
  else .response 415 "text/plain"

/-! ### Client-side error flag (src/ui MonitoringPage.tsx) -/
/-- The dashboard's error detector:
`span.events?.some(event => event.name === 'exception') || false`. -/
def uiHasError (events : List Event) : Bool :=
  events.any (fun e => e.Name == "exception")

/-! ### Ingest lemmas and claims C1, C10, C7 -/
/-- The rows one scope-spans group contributes on the success path. -/
def groupRows (rs : ResourceSpans) (ss : ScopeSpans) : List DenormRow :=
  (ss.spans.map (mkIngestSpan (extractAttributes rs.resource.attributes)
    rs.schemaUrl ss.scope.name)).map spanToRow

/-- Concrete OTLP span used by witnesses. -/
def sampleOtlpSpan : OtlpSpan :=
  ⟨[0, 1, 2], [3, 4, 5], [], 1, "GET /a", 1000000000, 1005000000,
    [⟨"http.method", some (.stringValue "GET")⟩], []⟩

/-- Concrete scope-spans group used by witnesses. -/
def sampleScopeSpans : ScopeSpans :=
  ⟨⟨"svc"⟩, [sampleOtlpSpan]⟩

/-- Concrete resource-spans group used by witnesses. -/
def sampleResourceSpans : ResourceSpans :=
  ⟨⟨[⟨"service.name", some (.stringValue "svc")⟩]⟩, "https://example/schema",
    [sampleScopeSpans]⟩

/-- Concrete ingest request used by witnesses. -/
def sampleIngestRequest : ExportTraceServiceRequest :=
  ⟨[sampleResourceSpans]⟩

/-- Store row with an "exception" event, used for C8. -/
def rowWithException : DenormRow :=
  ⟨"t", "s", "", 0, "op", 1000, 2000, "", "svc", "", "", [], [],
    [1500], ["exception"], [], []⟩

/-- The same row without any event. -/
def rowWithoutException : DenormRow :=
  ⟨"t", "s", "", 0, "op", 1000, 2000, "", "svc", "", "", [], [],
    [], [], [], []⟩

/-- Span-attribute row `http.method=GET`, used for C5. -/
def rowHttpGet : DenormRow :=
  ⟨"t1", "s1", "", 0, "GET /a", 1000, 2000, "", "svc", "", "", [], [],
    [], [], ["http.method"], ["GET"]⟩

/-- Span-attribute row `http.method=POST`, used for C5. -/
def rowHttpPost : DenormRow :=
  ⟨"t2", "s2", "", 0, "POST /a", 3000, 4000, "", "svc", "", "", [], [],
    [], [], ["http.method"], ["POST"]⟩

/-- Store row starting 29.5 s before the Unix epoch, used for the C6
counterexample. -/
def rowPreEpoch : DenormRow :=
  ⟨"tpre", "spre", "", 0, "op", -29500000000, -29400000000, "", "svc",
    "", "", [], [], [], [], [], []⟩


/-- C4: the attribute-predicate parser is all-or-nothing: "a=b,c!=d"
parses to exactly the two trimmed pairs with "!=" matched in preference to
"="; an input containing no "=" at all parses to no predicate (nil); a
list in which one comma-separated fragment lacks an operator also parses
to no predicate. -/
theorem c4_parseAttributeQuery_cases :
    parseAttributeQuery "a=b,c!=d" =
      some [⟨"a", "b", "="⟩, ⟨"c", "d", "!="⟩] ∧
    parseAttributeQuery " a = b , c != d " =
      some [⟨"a", "b", "="⟩, ⟨"c", "d", "!="⟩] ∧
    parseAttributeQuery "plain text" = none ∧
    parseAttributeQuery "a=b,malformed" = none := by
  refine ⟨?_, ?_, ?_, ?_⟩ <;> decide

/-! ### Decimal rendering round-trip: `goAtoi (toString k) = some k`
for positive `k`, used to connect `GetIntervalFromDateRange` with
`ParseInterval`. -/
lemma goAtoiDigits_append_some (xs ys : List Char) (acc v : Nat)
    (h : goAtoiDigits xs acc = some v) :
    goAtoiDigits (xs ++ ys) acc = goAtoiDigits ys v := by
  induction xs generalizing acc with
  | nil =>
    simp only [goAtoiDigits, Option.some.injEq] at h
    simp [h]
  | cons c cs ih =>
    simp only [goAtoiDigits, List.cons_append] at h ⊢
    cases hd : digitVal c with
    | none => rw [hd] at h; exact Option.noConfusion h
    | some d => rw [hd] at h; exact ih _ h

lemma goAtoiDigits_all_digits (cs : List Char) (acc v : Nat)
    (h : goAtoiDigits cs acc = some v) :
    ∀ c ∈ cs, 48 ≤ c.toNat ∧ c.toNat ≤ 57 := by
  induction cs generalizing acc with
  | nil => simp
  | cons c cs ih =>
    intro x hx
    simp only [goAtoiDigits] at h
    cases hd : digitVal c with
    | none => rw [hd] at h; exact Option.noConfusion h
    | some d =>
      rw [hd] at h
      rcases List.mem_cons.mp hx with rfl | hx
      · unfold digitVal at hd
        by_cases hc : 48 ≤ x.toNat ∧ x.toNat ≤ 57
        · exact hc
        · simp [hc] at hd
      · exact ih _ h x hx

lemma digitChar_val (n : Nat) (h : n < 10) :
    digitVal (Nat.digitChar n) = some n := by
  interval_cases n <;> decide

lemma toDigitsCore_shape (fuel : Nat) :
    ∀ (n : Nat) (ds : List Char), n < fuel →
    ∃ cs, Nat.toDigitsCore 10 fuel n ds = cs ++ ds ∧ cs ≠ [] ∧
      ∀ acc, goAtoiDigits cs acc = some (acc * 10 ^ cs.length + n) := by
  induction fuel with
  | zero => intro n ds h; omega
  | succ fuel ih =>
    intro n ds h
    by_cases h10 : n / 10 = 0
    · refine ⟨[Nat.digitChar (n % 10)], ?_, by simp, ?_⟩
      · simp [Nat.toDigitsCore, h10]
      · intro acc
        have hlt : n < 10 := by omega
        have hmod : n % 10 = n := Nat.mod_eq_of_lt hlt
        simp [goAtoiDigits, hmod, digitChar_val n hlt]
    · have hfuel : n / 10 < fuel := by
        have h0 : 0 < n := by omega
        have := Nat.div_lt_self h0 (by norm_num : (1:Nat) < 10)
        omega
      obtain ⟨cs', hcs', hne', hval'⟩ := ih (n / 10) (Nat.digitChar (n % 10) :: ds) hfuel
      refine ⟨cs' ++ [Nat.digitChar (n % 10)], ?_, by simp, ?_⟩
      · simp only [Nat.toDigitsCore, h10, if_false]
        rw [hcs']; simp
      · intro acc
        rw [goAtoiDigits_append_some _ _ _ _ (hval' acc)]
        simp only [goAtoiDigits, digitChar_val (n % 10) (Nat.mod_lt _ (by norm_num)),
          List.length_append, List.length_cons, List.length_nil, Option.some.injEq]
        calc (acc * 10 ^ cs'.length + n / 10) * 10 + n % 10
            = acc * (10 ^ cs'.length * 10) + (10 * (n / 10) + n % 10) := by ring
          _ = acc * 10 ^ (cs'.length + 1) + n := by rw [Nat.div_add_mod, pow_succ]

lemma natRepr_data (m : Nat) :
    (Nat.repr m).data = Nat.toDigits 10 m := by
  simp [Nat.repr, Nat.toDigits, List.asString]

lemma toString_int_pos (k : Int) (h : 1 ≤ k) :
    (toString k).data = Nat.toDigits 10 k.toNat := by
  obtain ⟨m, rfl⟩ : ∃ m : Nat, k = (m : Int) :=
    ⟨k.toNat, (Int.toNat_of_nonneg (by omega)).symm⟩
  have hm : ((m : Int)).toNat = m := by omega
  rw [hm]
  show (toString m).data = Nat.toDigits 10 m
  exact natRepr_data m

lemma toDigits_spec (m : Nat) :
    ∃ cs, Nat.toDigits 10 m = cs ∧ cs ≠ [] ∧
      goAtoiDigits cs 0 = some m ∧ ∀ c ∈ cs, 48 ≤ c.toNat ∧ c.toNat ≤ 57 := by
  obtain ⟨cs, hcs, hne, hval⟩ := toDigitsCore_shape (m + 1) m [] (by omega)
  refine ⟨cs, ?_, hne, ?_, ?_⟩
  · simpa [Nat.toDigits] using hcs
  · simpa using hval 0
  · exact goAtoiDigits_all_digits cs 0 m (by simpa using hval 0)

lemma goFieldsAux_nonspace_run (rest : List Char) :
    ∀ (cs acc : List Char), (∀ c ∈ cs, goIsSpace c = false) →
      (acc ≠ [] ∨ cs ≠ []) →
      goFieldsAux (cs ++ ' ' :: rest) acc =
        (acc.reverse ++ cs) :: goFieldsAux rest [] := by
  intro cs
  induction cs with
  | nil =>
    intro acc hcs hne
    rcases hne with h | h
    · have hia : acc.isEmpty = false := by
        cases acc with
        | nil => exact absurd rfl h
        | cons a as => rfl
      have hsp : goIsSpace ' ' = true := by decide
      simp [goFieldsAux, hsp, hia]
    · exact absurd rfl h
  | cons c cs ih =>
    intro acc hcs hne
    have hc : goIsSpace c = false := hcs c (List.mem_cons_self _ _)
    have hstep : goFieldsAux ((c :: cs) ++ ' ' :: rest) acc =
        goFieldsAux (cs ++ ' ' :: rest) (c :: acc) := by
      show (if goIsSpace c then
              if acc.isEmpty then goFieldsAux (cs ++ ' ' :: rest) []
              else acc.reverse :: goFieldsAux (cs ++ ' ' :: rest) []
            else goFieldsAux (cs ++ ' ' :: rest) (c :: acc)) =
          goFieldsAux (cs ++ ' ' :: rest) (c :: acc)
      rw [hc]
      simp
    rw [hstep,
      ih (c :: acc) (fun x hx => hcs x (List.mem_cons_of_mem _ hx)) (Or.inl (by simp))]
    simp

lemma goFields_append_second (s : String) (hne : s.data ≠ [])
    (hcs : ∀ c ∈ s.data, goIsSpace c = false) :
    goFields (s ++ " second") = [s, "second"] := by
  unfold goFields
  have hdata : (s ++ " second").data = s.data ++ ' ' :: "second".data := by
    cases s
    rfl
  rw [hdata, goFieldsAux_nonspace_run _ s.data [] hcs (Or.inr hne)]
  have hsec : goFieldsAux "second".data [] = ["second".data] := by decide
  rw [hsec]
  have hmk : String.mk s.data = s := by cases s; rfl
  simp [hmk]

lemma digit_not_space (c : Char) (h : 48 ≤ c.toNat ∧ c.toNat ≤ 57) :
    goIsSpace c = false := by
  simp only [goIsSpace, List.mem_cons, List.not_mem_nil, or_false,
    decide_eq_false_iff_not]
  omega

lemma goAtoi_of_digits (s : String) (m : Nat) (hne : s.data ≠ [])
    (hd : ∀ c ∈ s.data, 48 ≤ c.toNat ∧ c.toNat ≤ 57)
    (hv : goAtoiDigits s.data 0 = some m) :
    goAtoi s = some (m : Int) := by
  unfold goAtoi
  cases hsd : s.data with
  | nil => exact absurd hsd hne
  | cons c cs =>
    have hc := hd c (hsd ▸ List.mem_cons_self c cs)
    have hcm : ¬ c = '-' := by
      intro hcc
      subst hcc
      revert hc
      decide
    have hcp : ¬ c = '+' := by
      intro hcc
      subst hcc
      revert hc
      decide
    rw [hsd] at hv
    simp only [goAtoiCL, if_neg hcm, if_neg hcp, hv, Option.map_some]
    rfl

lemma parseInterval_secondString (k : Int) (h : 1 ≤ k) :
    ParseInterval (toString k ++ " second") = some (k * nsPerSecond) := by
  obtain ⟨cs, hcs, hne, hval, hdig⟩ := toDigits_spec k.toNat
  have hdata : (toString k).data = cs := by rw [toString_int_pos k h, hcs]
  have hfields : goFields (toString k ++ " second") = [toString k, "second"] := by
    refine goFields_append_second _ (by rw [hdata]; exact hne) ?_
    intro c hc
    exact digit_not_space c (hdig c (by rwa [hdata] at hc))
  have hatoi : goAtoi (toString k) = some ((k.toNat : Nat) : Int) := by
    refine goAtoi_of_digits _ _ (by rw [hdata]; exact hne) ?_ ?_
    · intro c hc; exact hdig c (by rwa [hdata] at hc)
    · rw [hdata]; exact hval
  have hknat : ((k.toNat : Nat) : Int) = k := Int.toNat_of_nonneg (by omega)
  rw [hknat] at hatoi
  have hnle : ¬ k ≤ 0 := by omega
  have hlow : goToLower "second" = "second" := by decide
  unfold ParseInterval
  rw [hfields]
  simp only [hatoi, if_neg hnle, hlow]

/-- Positivity of the chosen bucket width. -/
lemma getIntervalSecs_pos (dr : DateRange) : 1 ≤ getIntervalSecs dr :=
  le_max_right _ _

/-- The interval fragment emitted by `GetIntervalFromDateRange` always
parses back to exactly `getIntervalSecs dr` seconds. -/
lemma parseInterval_getInterval (dr : DateRange) :
    ParseInterval (GetIntervalFromDateRange dr) =
      some (getIntervalSecs dr * nsPerSecond) :=
  parseInterval_secondString _ (getIntervalSecs_pos dr)

/-- C2 counterexample: a 30-second range does not get 1-second buckets as
the fixed interval table in the specification prescribes; the code
divides the total width by 15, yielding "2 second". -/
theorem c2_counterexample :
    GetIntervalFromDateRange ⟨0, 30 * nsPerSecond⟩ = "2 second" ∧
    ("2 second" : String) ≠ "1 second" := by
  constructor
  · decide
  · decide

/-- C2 amended: the bucket interval is not chosen by a fixed table;
`GetIntervalFromDateRange` targets 15 buckets, choosing
`max(total_seconds / 15, 1)` seconds (truncated division), and the
emitted SQL fragment parses back to exactly that duration.  In
particular a 30-second range yields 2-second buckets (16 padded points),
not 1-second buckets. -/
theorem c2_amended_interval_formula :
    (∀ dr : DateRange,
      ParseInterval (GetIntervalFromDateRange dr) =
        some (max (Int.tdiv (Int.tdiv (dr.End - dr.Start) nsPerSecond) 15) 1 *
          nsPerSecond)) ∧
    GetIntervalFromDateRange ⟨0, 30 * nsPerSecond⟩ = "2 second" := by
  constructor
  · intro dr
    exact parseInterval_getInterval dr
  · decide

/-- Every duration `ParseInterval` yields is a positive whole number of
seconds. -/
lemma parseInterval_shape (i : String) (d : Int)
    (h : ParseInterval i = some d) :
    ∃ k : Int, 0 < k ∧ d = k * nsPerSecond := by
  unfold ParseInterval at h
  split at h
  case h_2 => exact Option.noConfusion h
  split at h
  · exact Option.noConfusion h
  · rename_i n hA
    by_cases hn : n ≤ 0
    · rw [if_pos hn] at h; exact Option.noConfusion h
    · rw [if_neg hn] at h
      split at h <;>
        first
        | exact Option.noConfusion h
        | (injection h with h; exact ⟨_, by omega, h.symm⟩)

/-- Durations produced by `ParseInterval` are positive. -/
lemma parseInterval_pos (i : String) (d : Int)
    (h : ParseInterval i = some d) : 0 < d := by
  obtain ⟨k, hk, rfl⟩ := parseInterval_shape i d h
  have : (0 : Int) < nsPerSecond := by decide
  positivity

lemma padLoop_eq_range (vals : List (Int × Float)) (step e : Int)
    (h : 0 < step) (ts : Int) :
    padLoop vals step e h ts =
      (List.range (if e < ts then 0 else ((e - ts).toNat / step.toNat + 1))).map
        (fun j => ⟨ts + j * step, mapGetD vals (ts + j * step)⟩) := by
  have H : ∀ (fuel : Nat) (ts : Int), (e + step - ts).toNat ≤ fuel →
      padLoop vals step e h ts =
        (List.range (if e < ts then 0 else ((e - ts).toNat / step.toNat + 1))).map
          (fun j => ⟨ts + j * step, mapGetD vals (ts + j * step)⟩) := by
    intro fuel
    induction fuel with
    | zero =>
      intro ts hle
      have he : e < ts := by omega
      rw [padLoop]
      simp [he, GT.gt]
    | succ fuel ih =>
      intro ts hle
      by_cases he : e < ts
      · rw [padLoop]
        simp [he, GT.gt]
      · rw [padLoop, dif_neg (by omega : ¬ ts > e)]
        rw [ih (ts + step) (by omega)]
        have harith :
            (if e < ts + step then 0 else ((e - (ts + step)).toNat / step.toNat + 1)) + 1 =
              (e - ts).toNat / step.toNat + 1 := by
          by_cases h2 : e < ts + step
          · rw [if_pos h2]
            have hlt : (e - ts).toNat < step.toNat := by omega
            rw [Nat.div_eq_of_lt hlt]
          · rw [if_neg h2]
            have hstep' : 0 < step.toNat := by omega
            have hge : step.toNat ≤ (e - ts).toNat := by omega
            rw [Nat.div_eq ((e - ts).toNat) step.toNat, if_pos ⟨hstep', hge⟩]
            have hsub : (e - ts).toNat - step.toNat = (e - (ts + step)).toNat := by omega
            rw [hsub]
        rw [if_neg he, ← harith]
        rw [List.range_succ_eq_map]
        simp only [List.map_cons, List.map_map]
        congr 1
        · have h0 : ts + ((0 : Nat) : Int) * step = ts := by simp
          exact (congrArg (fun t => TimePercentile.mk t (mapGetD vals t)) h0).symm
        · refine List.map_congr_left ?_
          intro j _
          have hj : ts + step + (j : Int) * step = ts + ((Nat.succ j : Nat) : Int) * step := by
            push_cast
            ring
          exact congrArg (fun t => TimePercentile.mk t (mapGetD vals t)) hj
  exact H ((e + step - ts).toNat) ts (le_refl _)

lemma alignToInterval_eq (t k : Int) (ht : 0 ≤ t) (hk : 0 < k) :
    AlignToInterval t (k * nsPerSecond) =
      k * ((t / nsPerSecond) / k) * nsPerSecond := by
  unfold AlignToInterval unixSec
  rw [Int.mul_tdiv_cancel _ (by decide : nsPerSecond ≠ 0)]
  rw [Int.fdiv_eq_ediv _ (by decide : (0 : Int) ≤ nsPerSecond)]
  rw [Int.tmod_eq_emod (Int.ediv_nonneg ht (by decide)) (le_of_lt hk)]
  rw [Int.emod_def]
  ring

lemma ediv_mul_le_self (a b : Int) (hb : 0 < b) : b * (a / b) ≤ a := by
  have h1 := Int.ediv_add_emod a b
  have h2 := Int.emod_nonneg a (by omega : b ≠ 0)
  linarith

lemma alignToInterval_le_self (t k : Int) (ht : 0 ≤ t) (hk : 0 < k) :
    AlignToInterval t (k * nsPerSecond) ≤ t := by
  rw [alignToInterval_eq t k ht hk]
  have hG : (0 : Int) < nsPerSecond := by decide
  have h1 : k * ((t / nsPerSecond) / k) ≤ t / nsPerSecond :=
    ediv_mul_le_self _ _ hk
  have h2 : (t / nsPerSecond) * nsPerSecond ≤ t := by
    have := ediv_mul_le_self t nsPerSecond hG
    linarith [this]
  calc k * ((t / nsPerSecond) / k) * nsPerSecond
      ≤ (t / nsPerSecond) * nsPerSecond :=
        mul_le_mul_of_nonneg_right h1 (le_of_lt hG)
    _ ≤ t := h2

lemma alignToInterval_nonneg (t k : Int) (ht : 0 ≤ t) (hk : 0 < k) :
    0 ≤ AlignToInterval t (k * nsPerSecond) := by
  rw [alignToInterval_eq t k ht hk]
  have hG : (0 : Int) < nsPerSecond := by decide
  have := Int.ediv_nonneg (Int.ediv_nonneg ht (le_of_lt hG)) (le_of_lt hk)
  positivity

lemma align_count (a b k : Int) (ha : 0 ≤ a) (hab : a ≤ b) (hk : 0 < k) :
    ((b - AlignToInterval a (k * nsPerSecond)).toNat / (k * nsPerSecond).toNat : Int) =
      Int.tdiv (AlignToInterval b (k * nsPerSecond) - AlignToInterval a (k * nsPerSecond))
        (k * nsPerSecond) := by
  have hG : (0 : Int) < nsPerSecond := by decide
  have hb : 0 ≤ b := le_trans ha hab
  rw [alignToInterval_eq a k ha hk, alignToInterval_eq b k hb hk]
  set G := nsPerSecond with hGdef
  set A := a / G with hAdef
  set B := b / G with hBdef
  have hA0 : 0 ≤ A := Int.ediv_nonneg ha (le_of_lt hG)
  have hAB : A ≤ B := Int.ediv_le_ediv hG hab
  set qA := A / k with hqAdef
  set qB := B / k with hqBdef
  have hqA0 : 0 ≤ qA := Int.ediv_nonneg hA0 (le_of_lt hk)
  have hq : qA ≤ qB := Int.ediv_le_ediv hk hAB
  have hkG : (0 : Int) < k * G := mul_pos hk hG
  have hRHS : Int.tdiv (k * qB * G - k * qA * G) (k * G) = qB - qA := by
    have hfac : k * qB * G - k * qA * G = (qB - qA) * (k * G) := by ring
    rw [hfac, Int.mul_tdiv_cancel _ (ne_of_gt hkG)]
  rw [hRHS]
  have hr0 := Int.emod_nonneg b (ne_of_gt hG)
  have hrG := Int.emod_lt_of_pos b hG
  have hbdecomp : b = B * G + b % G := by
    have h1 := Int.ediv_add_emod b G
    linarith
  set D := B - k * qA with hDdef
  have hD0 : 0 ≤ D := by
    have h1 : k * qA ≤ A := ediv_mul_le_self A k hk
    omega
  have hDk : D / k = qB - qA := by
    have h1 : D = B + (-qA) * k := by rw [hDdef]; ring
    rw [h1, Int.add_mul_ediv_right _ _ (ne_of_gt hk), ← hqBdef]
    ring
  have hnum : b - k * qA * G = D * G + b % G := by
    rw [hDdef]
    linear_combination hbdecomp
  have hquot : (D * G + b % G) / (k * G) = D / k := by
    have hDdecomp := Int.ediv_add_emod D k
    have hs0 := Int.emod_nonneg D (ne_of_gt hk)
    have hsk := Int.emod_lt_of_pos D hk
    have hnum2 : D * G + b % G = (D % k * G + b % G) + (D / k) * (k * G) := by
      linear_combination (-G) * hDdecomp
    rw [hnum2, Int.add_mul_ediv_right _ _ (ne_of_gt hkG)]
    have hsmall : (D % k * G + b % G) / (k * G) = 0 := by
      apply Int.ediv_eq_zero_of_lt
      · exact add_nonneg (mul_nonneg hs0 (le_of_lt hG)) hr0
      · calc D % k * G + b % G < D % k * G + G := by linarith
          _ = (D % k + 1) * G := by ring
          _ ≤ k * G := mul_le_mul_of_nonneg_right (by omega) (le_of_lt hG)
    rw [hsmall]
    simp
  have hLHSnn : 0 ≤ b - k * qA * G := by
    have h1 : k * qA ≤ A := ediv_mul_le_self A k hk
    have h2 : k * qA * G ≤ A * G := mul_le_mul_of_nonneg_right h1 (le_of_lt hG)
    have h3 : G * A ≤ a := ediv_mul_le_self a G hG
    nlinarith
  have hcast : ((b - k * qA * G).toNat / (k * G).toNat : Int) =
      (b - k * qA * G) / (k * G) := by
    obtain ⟨p, hp⟩ : ∃ p : Nat, b - k * qA * G = (p : Int) :=
      ⟨_, (Int.toNat_of_nonneg hLHSnn).symm⟩
    obtain ⟨q, hq2⟩ : ∃ q : Nat, k * G = (q : Int) :=
      ⟨_, (Int.toNat_of_nonneg hkG.le).symm⟩
    rw [hp, hq2, Int.toNat_natCast, Int.toNat_natCast]
  rw [hcast, hnum, hquot, hDk]

/-- C3 amended: restricted to ranges starting at or after the epoch
(`0 ≤ dr.Start`, which every range the system actually serves satisfies),
the padded series has length `(alignedEnd − alignedStart)/Δ + 1`, its
timestamps start at the aligned range start and strictly increase by
exactly `Δ`, the first timestamp is at most the range start, every
timestamp is at most the range end, and every point carries the
store-returned value for its exact timestamp (zero when absent).  For
pre-epoch range starts the claim fails because Go `%` aligns toward zero
rather than downward (see the counterexample). -/
theorem c3_amended_padding_spec (rows : List (Int × Float)) (i : String)
    (step : Int) (dr : DateRange)
    (hp : ParseInterval i = some step)
    (h0 : 0 ≤ dr.Start) (hab : dr.Start < dr.End) :
    ∃ series, PadQueryResult rows i dr = some series ∧
      (series.length : Int) =
        Int.tdiv (AlignToInterval dr.End step - AlignToInterval dr.Start step)
          step + 1 ∧
      (∀ (j : Nat) (hj : j < series.length),
        (series.get ⟨j, hj⟩).Timestamp = AlignToInterval dr.Start step + j * step) ∧
      (∀ (j : Nat) (hj1 : j + 1 < series.length) (hj0 : j < series.length),
        (series.get ⟨j + 1, hj1⟩).Timestamp = (series.get ⟨j, hj0⟩).Timestamp + step) ∧
      (∀ (hpos : 0 < series.length), (series.get ⟨0, hpos⟩).Timestamp ≤ dr.Start) ∧
      (∀ p ∈ series, p.Timestamp ≤ dr.End) ∧
      (∀ p ∈ series, p.Value = mapGetD (buildVals rows) p.Timestamp) := by
  obtain ⟨k, hk, rfl⟩ := parseInterval_shape i step hp
  have hG : (0 : Int) < nsPerSecond := by decide
  have hkG : (0 : Int) < k * nsPerSecond := mul_pos hk hG
  set aligned := AlignToInterval dr.Start (k * nsPerSecond) with haligneddef
  have halignle : aligned ≤ dr.Start := alignToInterval_le_self _ k h0 hk
  have haligne : ¬ dr.End < aligned := by omega
  have hseries : PadQueryResult rows i dr =
      some (padLoop (buildVals rows) (k * nsPerSecond) dr.End hkG aligned) := by
    unfold PadQueryResult
    simp only [hp]
    rw [dif_pos hkG]
  have hrange := padLoop_eq_range (buildVals rows) (k * nsPerSecond) dr.End hkG aligned
  rw [if_neg haligne] at hrange
  rw [hrange] at hseries
  set m := (dr.End - aligned).toNat / (k * nsPerSecond).toNat with hmdef
  refine ⟨_, hseries, ?_, ?_, ?_, ?_, ?_, ?_⟩
  · -- length
    rw [List.length_map, List.length_range]
    have hac := align_count dr.Start dr.End k h0 (le_of_lt hab) hk
    rw [← haligneddef] at hac
    rw [hmdef, Nat.cast_add, Nat.cast_one]
    push_cast at hac ⊢
    rw [hac]
  · -- timestamps
    intro j hj
    rw [List.length_map, List.length_range] at hj
    simp [List.get_eq_getElem, List.getElem_map, List.getElem_range]
  · -- stride
    intro j hj1 hj0
    rw [List.length_map, List.length_range] at hj1 hj0
    simp only [List.get_eq_getElem, List.getElem_map, List.getElem_range]
    push_cast
    ring
  · -- first point at or before the range start
    intro hpos
    simp only [List.get_eq_getElem, List.getElem_map, List.getElem_range]
    simpa using halignle
  · -- every timestamp at most the range end
    intro p hp2
    obtain ⟨j, hj, rfl⟩ := List.mem_map.mp hp2
    have hjm : j ≤ m := by
      have := List.mem_range.mp hj
      omega
    have hEnn : 0 ≤ dr.End - aligned := by omega
    have hdivle : (m * (k * nsPerSecond).toNat : Nat) ≤ (dr.End - aligned).toNat := by
      rw [hmdef]
      exact Nat.div_mul_le_self _ _
    have hcast : ((m : Int)) * (k * nsPerSecond) ≤ dr.End - aligned := by
      have h1 : (((m * (k * nsPerSecond).toNat : Nat)) : Int) ≤
          (((dr.End - aligned).toNat : Nat) : Int) := by exact_mod_cast hdivle
      rw [Int.toNat_of_nonneg hEnn] at h1
      push_cast at h1
      rwa [Int.toNat_of_nonneg (le_of_lt hkG)] at h1
    have hjcast : ((j : Int)) * (k * nsPerSecond) ≤ ((m : Int)) * (k * nsPerSecond) := by
      have : ((j : Int)) ≤ ((m : Int)) := by exact_mod_cast hjm
      exact mul_le_mul_of_nonneg_right this (le_of_lt hkG)
    show aligned + (j : Int) * (k * nsPerSecond) ≤ dr.End
    omega
  · -- zero-fill values
    intro p hp2
    obtain ⟨j, _, rfl⟩ := List.mem_map.mp hp2
    rfl

/-- C3 counterexample: for the pre-epoch range `[-30 s, 30 s]` with a
1-minute interval the emitted series is a single point at timestamp 0:
its first timestamp exceeds the range start (the claimed alignment is
downward, but Go `%` aligns toward zero for negative times), and its
length is 1 whereas the claimed formula (with genuine floor alignment)
gives 2. -/
theorem c3_counterexample :
    ∃ series,
      PadQueryResult [] "1 minute" ⟨-30 * nsPerSecond, 30 * nsPerSecond⟩ =
        some series ∧
      series.map (fun p => p.Timestamp) = [0] ∧
      ¬ ((0 : Int) ≤ -30 * nsPerSecond) ∧
      Int.fdiv (Int.fdiv (30 * nsPerSecond) 60000000000 * 60000000000 -
          Int.fdiv (-30 * nsPerSecond) 60000000000 * 60000000000) 60000000000 + 1 = 2 ∧
      series.length ≠ 2 := by
  have h1 : ParseInterval "1 minute" = some 60000000000 := by decide
  have hkG : (0 : Int) < 60000000000 := by decide
  have hser : PadQueryResult [] "1 minute" ⟨-30 * nsPerSecond, 30 * nsPerSecond⟩ =
      some (padLoop (buildVals []) 60000000000 (30 * nsPerSecond) hkG
        (AlignToInterval (-30 * nsPerSecond) 60000000000)) := by
    unfold PadQueryResult
    simp only [h1]
    rw [dif_pos hkG]
  have halign : AlignToInterval (-30 * nsPerSecond) 60000000000 = 0 := by decide
  rw [halign] at hser
  have hrange := padLoop_eq_range (buildVals []) 60000000000 (30 * nsPerSecond) hkG 0
  have hcond : ¬ (30 * nsPerSecond < (0 : Int)) := by decide
  rw [if_neg hcond] at hrange
  have hn : ((30 * nsPerSecond - 0).toNat / (60000000000 : Int).toNat + 1) = 1 := by decide
  rw [hn] at hrange
  rw [hrange] at hser
  refine ⟨_, hser, ?_, by decide, by decide, ?_⟩
  · rw [show List.range 1 = [0] from rfl]
    simp
  · simp

lemma insertDenorm_none (store : List DenormRow) (spans : List Span) :
    InsertDenormalizedSpans none store spans =
      .ok (store ++ spans.map spanToRow) := by
  unfold InsertDenormalizedSpans
  by_cases h : spans.isEmpty
  · rw [if_pos h]
    have : spans = [] := List.isEmpty_iff.mp h
    subst this
    simp
  · rw [if_neg h]

lemma foldScope_none (rs : ResourceSpans) :
    ∀ (sss : List ScopeSpans) (st : List DenormRow),
    (sss.foldlM (fun st2 ss => InsertDenormalizedSpans none st2
      (ss.spans.map (mkIngestSpan (extractAttributes rs.resource.attributes)
        rs.schemaUrl ss.scope.name))) st : Except String (List DenormRow)) =
      .ok (st ++ sss.flatMap (groupRows rs)) := by
  intro sss
  induction sss with
  | nil =>
    intro st
    show (Except.ok st : Except String (List DenormRow)) = _
    simp
  | cons ss rest ih =>
    intro st
    rw [List.foldlM_cons, insertDenorm_none]
    show (rest.foldlM _ _ : Except String (List DenormRow)) = _
    rw [ih]
    simp [groupRows, List.append_assoc]

lemma ingestTrace_none (req : ExportTraceServiceRequest)
    (store : List DenormRow) :
    ingestTrace none req store =
      .ok (store ++ req.resourceSpans.flatMap (fun rs =>
        rs.scopeSpans.flatMap (groupRows rs))) := by
  unfold ingestTrace
  generalize req.resourceSpans = rss
  induction rss generalizing store with
  | nil =>
    show (Except.ok store : Except String (List DenormRow)) = _
    simp
  | cons rs rest ih =>
    rw [List.foldlM_cons, foldScope_none]
    show (rest.foldlM _ _ : Except String (List DenormRow)) = _
    rw [ih]
    simp [List.append_assoc]

/-- C1: every span ingested through `ingestTrace` (stored via
`InsertDenormalizedSpans`) is returned by a subsequent `GetTraceDetails`
on its trace id, with identical span id, parent span id, name, start,
end, and service (= scope name), the three identifiers being the base64
encodings of the original bytes. -/
theorem c1_ingest_getTraceDetails_roundtrip
    (req : ExportTraceServiceRequest) (store store' : List DenormRow)
    (rs : ResourceSpans) (ss : ScopeSpans) (sp : OtlpSpan)
    (h1 : rs ∈ req.resourceSpans) (h2 : ss ∈ rs.scopeSpans)
    (h3 : sp ∈ ss.spans)
    (h4 : ingestTrace none req store = .ok store') :
    ∃ t ∈ GetTraceDetails store' (encodeBytes sp.traceId),
      t.SpanID = encodeBytes sp.spanId ∧
      t.ParentSpanID = encodeBytes sp.parentSpanId ∧
      t.Name = sp.name ∧
      t.StartTime = sp.startTimeUnixNano ∧
      t.EndTime = sp.endTimeUnixNano ∧
      t.Service = ss.scope.name := by
  rw [ingestTrace_none] at h4
  injection h4 with h4
  have hrow : spanToRow (mkIngestSpan (extractAttributes rs.resource.attributes)
      rs.schemaUrl ss.scope.name sp) ∈ store' := by
    rw [← h4]
    refine List.mem_append_right _ ?_
    refine List.mem_flatMap.mpr ⟨rs, h1, ?_⟩
    refine List.mem_flatMap.mpr ⟨ss, h2, ?_⟩
    exact List.mem_map_of_mem _ (List.mem_map_of_mem _ h3)
  have hfil : spanToRow (mkIngestSpan (extractAttributes rs.resource.attributes)
      rs.schemaUrl ss.scope.name sp) ∈
      store'.filter (fun r => r.trace_id == encodeBytes sp.traceId) := by
    refine List.mem_filter.mpr ⟨hrow, ?_⟩
    show (spanToRow _).trace_id == encodeBytes sp.traceId
    exact beq_self_eq_true _
  have hsorted := (List.perm_insertionSort
    (fun r1 r2 => r1.start_time_unix_nano ≤ r2.start_time_unix_nano)
    (store'.filter (fun r => r.trace_id == encodeBytes sp.traceId))).mem_iff.mpr hfil
  exact ⟨_, List.mem_map_of_mem toTraceSpan hsorted, rfl, rfl, rfl, rfl, rfl, rfl⟩

/-- Witness for C1 at a concrete one-span ingest. -/
theorem c1_witness :
    ∃ store', ingestTrace none sampleIngestRequest [] = .ok store' ∧
      ∃ t ∈ GetTraceDetails store' (encodeBytes [0, 1, 2]),
        t.Name = "GET /a" ∧ t.Service = "svc" := by
  refine ⟨_, ingestTrace_none sampleIngestRequest [], ?_⟩
  obtain ⟨t, ht, _, _, hname, _, _, hsvc⟩ :=
    c1_ingest_getTraceDetails_roundtrip sampleIngestRequest [] _
      sampleResourceSpans sampleScopeSpans sampleOtlpSpan
      (List.mem_singleton.mpr rfl) (List.mem_singleton.mpr rfl)
      (List.mem_singleton.mpr rfl) (ingestTrace_none sampleIngestRequest [])
  exact ⟨t, ht, hname, hsvc⟩

/-- C10: an ingest whose request carries no spans (no resource spans at
all, or scope-spans groups with empty span lists) succeeds and leaves
the store untouched, whatever the batch layer would have done:
`InsertDenormalizedSpans` returns nil before any store interaction on an
empty batch. -/
theorem c10_empty_ingest_noop (fail : Option BatchFailure)
    (req : ExportTraceServiceRequest) (store : List DenormRow)
    (h : ∀ rs ∈ req.resourceSpans, ∀ ss ∈ rs.scopeSpans, ss.spans = []) :
    ingestTrace fail req store = .ok store := by
  unfold ingestTrace
  generalize hq : req.resourceSpans = rss
  rw [hq] at h
  clear hq
  revert h
  induction rss generalizing store with
  | nil =>
    intro h
    rfl
  | cons rs rest ih =>
    intro h
    rw [List.foldlM_cons]
    have hinner : (rs.scopeSpans.foldlM (fun st2 ss =>
        InsertDenormalizedSpans fail st2
          (ss.spans.map (mkIngestSpan (extractAttributes rs.resource.attributes)
            rs.schemaUrl ss.scope.name))) store : Except String (List DenormRow)) =
        .ok store := by
      have hrs := h rs (List.mem_cons_self _ _)
      generalize hs : rs.scopeSpans = sss
      rw [hs] at hrs
      clear hs
      revert hrs
      induction sss generalizing store with
      | nil =>
        intro hrs
        rfl
      | cons ss rest2 ih2 =>
        intro hrs
        rw [List.foldlM_cons]
        have hempty : ss.spans = [] := hrs ss (List.mem_cons_self _ _)
        rw [hempty]
        show (InsertDenormalizedSpans fail store [] >>= _ :
          Except String (List DenormRow)) = _
        rw [show InsertDenormalizedSpans fail store [] = .ok store from rfl]
        show (rest2.foldlM _ _ : Except String (List DenormRow)) = _
        exact ih2 store (fun x hx => hrs x (List.mem_cons_of_mem _ hx))
    rw [hinner]
    show (rest.foldlM _ _ : Except String (List DenormRow)) = _
    exact ih store (fun x hx => h x (List.mem_cons_of_mem _ hx))

/-- Witness for C10 at a concrete spanless request with an injected store failure. -/
theorem c10_witness :
    (∀ rs ∈ (⟨[⟨⟨[]⟩, "u", [⟨⟨"svc"⟩, []⟩]⟩]⟩ :
        ExportTraceServiceRequest).resourceSpans,
      ∀ ss ∈ rs.scopeSpans, ss.spans = []) ∧
    ingestTrace (some (.prepare "store down"))
      ⟨[⟨⟨[]⟩, "u", [⟨⟨"svc"⟩, []⟩]⟩]⟩ [] = .ok [] := by
  have hyp : ∀ rs ∈ (⟨[⟨⟨[]⟩, "u", [⟨⟨"svc"⟩, []⟩]⟩]⟩ :
      ExportTraceServiceRequest).resourceSpans,
      ∀ ss ∈ rs.scopeSpans, ss.spans = [] := by
    intro rs hrs ss hss
    rw [List.mem_singleton.mp hrs] at hss
    rw [List.mem_singleton.mp hss]
  exact ⟨hyp, c10_empty_ingest_noop (some (.prepare "store down")) _ [] hyp⟩

/-- C7: the claim that a failing store write after a successful decode is
answered with a 5xx is wrong — the handler panics.  Evaluating the
embedded handler at a one-span request whose batch send fails shows the
outcome is a panic, not an HTTP response of any status. -/
theorem c7_ingest_error_panics :
    ingestTraceHTTPRequest "POST" "application/x-protobuf" true
        (.ok sampleIngestRequest) (.error "unused") (.error "unused")
        (some (.send "connection refused")) [] =
      .panicked "ingestion err: failed to send batch: connection refused\n" ∧
    ∀ (status : Nat) (ct : String),
      ingestTraceHTTPRequest "POST" "application/x-protobuf" true
          (.ok sampleIngestRequest) (.error "unused") (.error "unused")
          (some (.send "connection refused")) [] ≠ .response status ct := by
  have h : ingestTraceHTTPRequest "POST" "application/x-protobuf" true
      (.ok sampleIngestRequest) (.error "unused") (.error "unused")
      (some (.send "connection refused")) [] =
      .panicked "ingestion err: failed to send batch: connection refused\n" := by
    decide
  exact ⟨h, fun status ct hc => by
    rw [h] at hc
    exact HandlerOutcome.noConfusion hc⟩

/-! ### Claims C9, C8, C5 -/
/-- C9 counterexample: an unknown span id is not answered with 404 as
the claim states — the handler maps the "span not found" service error
to 500 like any other error. -/
theorem c9_counterexample :
    getSpanDetailsHandler [] "x" = (500, none) ∧ (500 : Nat) ≠ 404 := by
  exact ⟨rfl, by decide⟩

/-- C9 amended: for a span id with no matching row `GetSpanDetails`
fails with the error "span not found: <id>" and the HTTP handler
responds 500 (not 404); for a trace id with no matching rows the trace
handler responds 200 with the empty list. -/
theorem c9_amended_spanNotFound_500 (store : List DenormRow)
    (spanID traceID : String)
    (h1 : store.filter (fun r => r.span_id == spanID) = [])
    (h2 : store.filter (fun r => r.trace_id == traceID) = []) :
    GetSpanDetails store spanID = .error ("span not found: " ++ spanID) ∧
    getSpanDetailsHandler store spanID = (500, none) ∧
    getTraceDetailsHandler store traceID = (200, []) := by
  have hg : GetSpanDetails store spanID =
      .error ("span not found: " ++ spanID) := by
    unfold GetSpanDetails
    rw [h1]
  refine ⟨hg, ?_, ?_⟩
  · unfold getSpanDetailsHandler
    rw [hg]
  · unfold getTraceDetailsHandler GetTraceDetails
    rw [h2]
    rfl

/-- Witness for C9 on the empty store. -/
theorem c9_witness :
    getSpanDetailsHandler [] "x" = (500, none) ∧
    getTraceDetailsHandler [] "y" = (200, []) := by
  obtain ⟨_, ha, hb⟩ := c9_amended_spanNotFound_500 [] "x" "y" rfl rfl
  exact ⟨ha, hb⟩

/-- C8 counterexample: the query API's reader records carry no
`hasError` field at all — the search and trace-details outputs for a
span with an "exception" event and for the same span without any event
are identical, so the API cannot be reporting `hasError` as the claim
states. -/
theorem c8_counterexample :
    rowWithException.event_keys.contains "exception" = true ∧
    rowWithoutException.event_keys.contains "exception" = false ∧
    toSearchResult rowWithException = toSearchResult rowWithoutException ∧
    GetTraceDetails [rowWithException] "t" =
      GetTraceDetails [rowWithoutException] "t" := by
  exact ⟨by decide, by decide, rfl, rfl⟩

/-- C8 amended: the `hasError` flag is computed client-side by the
dashboard (src/ui MonitoringPage.tsx) from the span's events, and there
it is true exactly when some event is named "exception"; the query API
itself returns no such flag. -/
theorem c8_amended_ui_hasError :
    (∀ events : List Event,
      uiHasError events = true ↔ ∃ e ∈ events, e.Name = "exception") ∧
    uiHasError [⟨1, "exception", []⟩] = true ∧
    uiHasError [⟨1, "other", []⟩] = false := by
  refine ⟨?_, by decide, by decide⟩
  intro events
  simp [uiHasError, List.any_eq_true]

/-- C5: the claim that `query=http.method!=GET` returns only the POST
span is wrong.  The NEQ condition joins the resource-attribute clause
and the span-attribute clause with OR; since neither span carries
`http.method` among its resource attributes, the resource clause
`NOT has(resource_attributes.key, 'http.method')` is true for both, so
both spans match and the search returns both (the comment in the source
promises "spans that either don't have the key or have a different
value", which the GET span is not). -/
theorem c5_neq_filter_returns_both_spans :
    attrCondHolds rowHttpGet ⟨"http.method", "GET", "!="⟩ = true ∧
    (SearchTraces [rowHttpGet, rowHttpPost] ⟨0, 10000⟩ "http.method!=GET"
      1 10 ⟨"", ""⟩).map (fun r => r.SpanID) = ["s2", "s1"] := by
  exact ⟨by decide, by decide⟩

/-! ### Claim C6: the count series conserves the row count -/
lemma padLoopCount_eq_range (counts : Int → Nat) (step e : Int)
    (h : 0 < step) (ts : Int) :
    padLoopCount counts step e h ts =
      (List.range (if e < ts then 0 else ((e - ts).toNat / step.toNat + 1))).map
        (fun j => ⟨ts + j * step, counts (ts + j * step)⟩) := by
  have H : ∀ (fuel : Nat) (ts : Int), (e + step - ts).toNat ≤ fuel →
      padLoopCount counts step e h ts =
        (List.range (if e < ts then 0 else ((e - ts).toNat / step.toNat + 1))).map
          (fun j => ⟨ts + j * step, counts (ts + j * step)⟩) := by
    intro fuel
    induction fuel with
    | zero =>
      intro ts hle
      have he : e < ts := by omega
      rw [padLoopCount]
      simp [he, GT.gt]
    | succ fuel ih =>
      intro ts hle
      by_cases he : e < ts
      · rw [padLoopCount]
        simp [he, GT.gt]
      · rw [padLoopCount, dif_neg (by omega : ¬ ts > e)]
        rw [ih (ts + step) (by omega)]
        have harith :
            (if e < ts + step then 0 else ((e - (ts + step)).toNat / step.toNat + 1)) + 1 =
              (e - ts).toNat / step.toNat + 1 := by
          by_cases h2 : e < ts + step
          · rw [if_pos h2]
            have hlt : (e - ts).toNat < step.toNat := by omega
            rw [Nat.div_eq_of_lt hlt]
          · rw [if_neg h2]
            have hstep' : 0 < step.toNat := by omega
            have hge : step.toNat ≤ (e - ts).toNat := by omega
            rw [Nat.div_eq ((e - ts).toNat) step.toNat, if_pos ⟨hstep', hge⟩]
            have hsub : (e - ts).toNat - step.toNat = (e - (ts + step)).toNat := by omega
            rw [hsub]
        rw [if_neg he, ← harith]
        rw [List.range_succ_eq_map]
        simp only [List.map_cons, List.map_map]
        congr 1
        · have h0 : ts + ((0 : Nat) : Int) * step = ts := by simp
          exact (congrArg (fun t => TimeCount.mk t (counts t)) h0).symm
        · refine List.map_congr_left ?_
          intro j _
          have hj : ts + step + (j : Int) * step = ts + ((Nat.succ j : Nat) : Int) * step := by
            push_cast
            ring
          exact congrArg (fun t => TimeCount.mk t (counts t)) hj
  exact H ((e + step - ts).toNat) ts (le_refl _)

lemma sum_map_add_nat (T : List Int) (f g : Int → Nat) :
    (T.map (fun t => f t + g t)).sum = (T.map f).sum + (T.map g).sum := by
  induction T with
  | nil => rfl
  | cons t ts ih =>
    simp only [List.map_cons, List.sum_cons, ih]
    omega

lemma sum_indicator_eq_one (T : List Int) (hnd : T.Nodup) (b : Int)
    (hb : b ∈ T) :
    (T.map (fun ts => if b = ts then 1 else 0)).sum = 1 := by
  induction T with
  | nil => cases hb
  | cons t ts ih =>
    rcases List.mem_cons.mp hb with rfl | hb2
    · have hbn : b ∉ ts := (List.nodup_cons.mp hnd).1
      have hz : (ts.map (fun x => if b = x then 1 else 0)).sum = 0 := by
        apply List.sum_eq_zero
        intro x hx
        obtain ⟨y, hy, rfl⟩ := List.mem_map.mp hx
        have : b ≠ y := fun h => hbn (h ▸ hy)
        simp [this]
      simp [hz]
    · have hne : b ≠ t := fun h => (List.nodup_cons.mp hnd).1 (h ▸ hb2)
      simp [hne, ih (List.nodup_cons.mp hnd).2 hb2]

lemma sum_indicator_eq_zero (T : List Int) (P : Int → Prop) [DecidablePred P]
    (hP : ∀ ts, ¬ P ts) :
    (T.map (fun ts => if P ts then 1 else 0)).sum = 0 := by
  apply List.sum_eq_zero
  intro x hx
  obtain ⟨y, hy, rfl⟩ := List.mem_map.mp hx
  simp [hP y]

lemma bucketCount_cons (r : DenormRow) (rest : List DenormRow)
    (dr : DateRange) (kSec ts : Int) :
    bucketCount (r :: rest) dr kSec ts =
      (if dr.Start ≤ r.start_time_unix_nano ∧ r.start_time_unix_nano ≤ dr.End ∧
          toStartOfIntervalNs r.start_time_unix_nano kSec = ts then 1 else 0) +
        bucketCount rest dr kSec ts := by
  unfold bucketCount
  rw [List.filter_cons]
  by_cases hc : dr.Start ≤ r.start_time_unix_nano ∧
      r.start_time_unix_nano ≤ dr.End ∧
      toStartOfIntervalNs r.start_time_unix_nano kSec = ts
  · have hb : (decide (dr.Start ≤ r.start_time_unix_nano) &&
        decide (r.start_time_unix_nano ≤ dr.End) &&
        decide (toStartOfIntervalNs r.start_time_unix_nano kSec = ts)) = true := by
      simp [hc.1, hc.2.1, hc.2.2]
    rw [if_pos hc]
    simp only [hb, if_true, List.length_cons]
    omega
  · have hb : (decide (dr.Start ≤ r.start_time_unix_nano) &&
        decide (r.start_time_unix_nano ≤ dr.End) &&
        decide (toStartOfIntervalNs r.start_time_unix_nano kSec = ts)) = false := by
      rcases not_and_or.mp hc with h | h
      · simp [h]
      · rcases not_and_or.mp h with h2 | h2
        · simp [h2]
        · simp [h2]
    rw [if_neg hc]
    simp only [hb]
    simp

lemma sum_bucketCount (dr : DateRange) (kSec : Int) (T : List Int)
    (hnd : T.Nodup) :
    ∀ (store : List DenormRow),
    (∀ r ∈ store, dr.Start ≤ r.start_time_unix_nano →
      r.start_time_unix_nano ≤ dr.End →
      toStartOfIntervalNs r.start_time_unix_nano kSec ∈ T) →
    (T.map (fun ts => bucketCount store dr kSec ts)).sum =
      (store.filter (fun r => decide (dr.Start ≤ r.start_time_unix_nano) &&
        decide (r.start_time_unix_nano ≤ dr.End))).length := by
  intro store
  induction store with
  | nil =>
    intro _
    simp [bucketCount]
  | cons r rest ih =>
    intro hmem
    have hmap : T.map (fun ts => bucketCount (r :: rest) dr kSec ts) =
        T.map (fun ts =>
          (if dr.Start ≤ r.start_time_unix_nano ∧
              r.start_time_unix_nano ≤ dr.End ∧
              toStartOfIntervalNs r.start_time_unix_nano kSec = ts then 1 else 0) +
            bucketCount rest dr kSec ts) :=
      List.map_congr_left (fun ts _ => bucketCount_cons r rest dr kSec ts)
    rw [hmap, sum_map_add_nat,
      ih (fun x hx => hmem x (List.mem_cons_of_mem _ hx))]
    rw [List.filter_cons]
    by_cases hin : dr.Start ≤ r.start_time_unix_nano ∧
        r.start_time_unix_nano ≤ dr.End
    · have hb : (decide (dr.Start ≤ r.start_time_unix_nano) &&
          decide (r.start_time_unix_nano ≤ dr.End)) = true := by
        simp [hin.1, hin.2]
      have hone : (T.map (fun ts =>
          if dr.Start ≤ r.start_time_unix_nano ∧
              r.start_time_unix_nano ≤ dr.End ∧
              toStartOfIntervalNs r.start_time_unix_nano kSec = ts
          then 1 else 0)).sum = 1 := by
        have hbm := hmem r (List.mem_cons_self _ _) hin.1 hin.2
        have heq : (T.map (fun ts =>
            if dr.Start ≤ r.start_time_unix_nano ∧
                r.start_time_unix_nano ≤ dr.End ∧
                toStartOfIntervalNs r.start_time_unix_nano kSec = ts
            then 1 else 0)) =
            (T.map (fun ts =>
              if toStartOfIntervalNs r.start_time_unix_nano kSec = ts
              then 1 else 0)) := by
          refine List.map_congr_left ?_
          intro ts _
          by_cases hq : toStartOfIntervalNs r.start_time_unix_nano kSec = ts
          · simp [hq, hin.1, hin.2]
          · simp [hq]
        rw [heq]
        exact sum_indicator_eq_one T hnd _ hbm
      rw [hone, hb]
      simp only [if_true, List.length_cons]
      omega
    · have hb : (decide (dr.Start ≤ r.start_time_unix_nano) &&
          decide (r.start_time_unix_nano ≤ dr.End)) = false := by
        rcases not_and_or.mp hin with h | h
        · simp [h]
        · simp [h]
      have hzero : (T.map (fun ts =>
          if dr.Start ≤ r.start_time_unix_nano ∧
              r.start_time_unix_nano ≤ dr.End ∧
              toStartOfIntervalNs r.start_time_unix_nano kSec = ts
          then 1 else 0)).sum = 0 := by
        apply sum_indicator_eq_zero
        intro ts hts
        exact hin ⟨hts.1, hts.2.1⟩
      rw [hzero, hb]
      simp

lemma toStartOfIntervalNs_eq (s k : Int) (hk : 0 < k) :
    toStartOfIntervalNs s k = ((s / nsPerSecond) / k) * k * nsPerSecond := by
  unfold toStartOfIntervalNs
  rw [Int.fdiv_eq_ediv _ (by decide : (0 : Int) ≤ nsPerSecond)]
  rw [Int.fdiv_eq_ediv _ (le_of_lt hk)]

lemma padded_nodup (aligned step : Int) (hstep : 0 < step) (n : Nat) :
    ((List.range n).map (fun j : Nat => aligned + (j : Int) * step)).Nodup := by
  have hinj : Function.Injective (fun j : Nat => aligned + (j : Int) * step) := by
    intro x y hxy
    simp only at hxy
    have h1 : (x : Int) * step = (y : Int) * step := by
      have := add_left_cancel hxy
      linarith
    have h2 : (x : Int) = (y : Int) :=
      mul_right_cancel₀ (ne_of_gt hstep) h1
    exact_mod_cast h2
  exact List.Nodup.map hinj (List.nodup_range _)

lemma int_toNat_div_cast (x y : Int) (hx : 0 ≤ x) (hy : 0 ≤ y) :
    ((x.toNat / y.toNat : Nat) : Int) = x / y := by
  obtain ⟨p, hp⟩ : ∃ p : Nat, x = (p : Int) := ⟨_, (Int.toNat_of_nonneg hx).symm⟩
  obtain ⟨q, hq⟩ : ∃ q : Nat, y = (q : Int) := ⟨_, (Int.toNat_of_nonneg hy).symm⟩
  rw [hp, hq, Int.toNat_natCast, Int.toNat_natCast]
  push_cast
  rfl

lemma bucket_mem_padded (dr : DateRange) (k : Int) (hk : 0 < k)
    (h0 : 0 ≤ dr.Start) (s : Int) (hs1 : dr.Start ≤ s) (hs2 : s ≤ dr.End) :
    ∃ j : Nat,
      j < (dr.End - AlignToInterval dr.Start (k * nsPerSecond)).toNat /
        (k * nsPerSecond).toNat + 1 ∧
      toStartOfIntervalNs s k =
        AlignToInterval dr.Start (k * nsPerSecond) + (j : Int) * (k * nsPerSecond) := by
  have hG : (0 : Int) < nsPerSecond := by decide
  have hkG : (0 : Int) < k * nsPerSecond := mul_pos hk hG
  have hs0 : 0 ≤ s := le_trans h0 hs1
  rw [alignToInterval_eq _ k h0 hk, toStartOfIntervalNs_eq s k hk]
  set G := nsPerSecond with hGdef
  set A1 := dr.Start / G with hA1def
  set S1 := s / G with hS1def
  set qA := A1 / k with hqAdef
  set qS := S1 / k with hqSdef
  have hA1S1 : A1 ≤ S1 := Int.ediv_le_ediv hG hs1
  have hq : qA ≤ qS := Int.ediv_le_ediv hk hA1S1
  have hcast : ((qS - qA).toNat : Int) = qS - qA := Int.toNat_of_nonneg (by omega)
  have hbs : qS * k * G ≤ s := by
    have h1 : k * qS ≤ S1 := ediv_mul_le_self S1 k hk
    have h2 : k * qS * G ≤ S1 * G :=
      mul_le_mul_of_nonneg_right h1 (le_of_lt hG)
    have h3 : G * S1 ≤ s := ediv_mul_le_self s G hG
    nlinarith
  refine ⟨(qS - qA).toNat, ?_, ?_⟩
  · have hb1 : (qS - qA) * (k * G) ≤ dr.End - k * qA * G := by
      have he : (qS - qA) * (k * G) = qS * k * G - k * qA * G := by ring
      rw [he]
      linarith
    have hb2 : qS - qA ≤ (dr.End - k * qA * G) / (k * G) := by
      rw [Int.le_ediv_iff_mul_le hkG]
      exact hb1
    have hEnn : 0 ≤ dr.End - k * qA * G := by
      have h1 : k * qA ≤ A1 := ediv_mul_le_self A1 k hk
      have h2 : k * qA * G ≤ A1 * G :=
        mul_le_mul_of_nonneg_right h1 (le_of_lt hG)
      have h3 : G * A1 ≤ dr.Start := ediv_mul_le_self dr.Start G hG
      nlinarith
    have hm := int_toNat_div_cast (dr.End - k * qA * G) (k * G) hEnn (le_of_lt hkG)
    omega
  · rw [hcast]
    ring

/-- C6 counterexample: the original claim quantifies over every date
range, but it fails for the pre-epoch range [−30 s, 30 s].  The chosen
interval is 4 s; Go `%` aligns the first emitted bucket boundary toward
zero, to −28 s, while the store's `toStartOfInterval` floors the row's
bucket: a row starting at −29.5 s is counted into bucket −32 s, which
the padding loop never emits, so the count series sums to 0 although
exactly one stored row lies within the range. -/
theorem c6_counterexample :
    ([rowPreEpoch].filter (fun r =>
        decide ((-30 * nsPerSecond : Int) ≤ r.start_time_unix_nano) &&
        decide (r.start_time_unix_nano ≤ (30 * nsPerSecond : Int)))).length
      = 1 ∧
    ∃ series,
      GetTraceCounts [rowPreEpoch] ⟨-30 * nsPerSecond, 30 * nsPerSecond⟩ =
        some series ∧
      (series.map (fun p => p.Value)).sum = 0 := by
  refine ⟨by decide, ?_⟩
  have hp := parseInterval_getInterval ⟨-30 * nsPerSecond, 30 * nsPerSecond⟩
  have hk : getIntervalSecs ⟨-30 * nsPerSecond, 30 * nsPerSecond⟩ = 4 := by
    decide
  rw [hk] at hp
  have hkG : (0 : Int) < 4 * nsPerSecond := by decide
  have hser : GetTraceCounts [rowPreEpoch]
      ⟨-30 * nsPerSecond, 30 * nsPerSecond⟩ =
      some (padLoopCount
        (bucketCount [rowPreEpoch] ⟨-30 * nsPerSecond, 30 * nsPerSecond⟩
          (Int.tdiv (4 * nsPerSecond) nsPerSecond))
        (4 * nsPerSecond) (30 * nsPerSecond) hkG
        (AlignToInterval (-30 * nsPerSecond) (4 * nsPerSecond))) := by
    unfold GetTraceCounts
    simp only [hp]
    rw [dif_pos hkG]
  have hksec : Int.tdiv (4 * nsPerSecond) nsPerSecond = (4 : Int) := by decide
  have halign : AlignToInterval (-30 * nsPerSecond) (4 * nsPerSecond) =
      -28 * nsPerSecond := by decide
  rw [hksec, halign] at hser
  have hrange := padLoopCount_eq_range
    (bucketCount [rowPreEpoch] ⟨-30 * nsPerSecond, 30 * nsPerSecond⟩ 4)
    (4 * nsPerSecond) (30 * nsPerSecond) hkG (-28 * nsPerSecond)
  have hcond : ¬ ((30 * nsPerSecond : Int) < -28 * nsPerSecond) := by decide
  rw [if_neg hcond] at hrange
  have hn : ((30 * nsPerSecond - -28 * nsPerSecond : Int).toNat /
      (4 * nsPerSecond : Int).toNat + 1) = 15 := by decide
  rw [hn] at hrange
  rw [hrange] at hser
  exact ⟨_, hser, by decide⟩

/-- C6 (amended): for every store state and every date range starting at
or after the epoch, the count series of `GetTraceCounts` sums to exactly
the number of stored rows whose start timestamp lies within the range —
every counted row's bucket falls on exactly one of the emitted padded
points, so the zero-fill padding neither loses nor duplicates counts.
For pre-epoch ranges the unrestricted property fails, see the
counterexample above. -/
theorem c6_count_series_sums_to_N (store : List DenormRow) (dr : DateRange)
    (h0 : 0 ≤ dr.Start) :
    ∃ series, GetTraceCounts store dr = some series ∧
      (series.map (fun p => p.Value)).sum =
        (store.filter (fun r => decide (dr.Start ≤ r.start_time_unix_nano) &&
          decide (r.start_time_unix_nano ≤ dr.End))).length := by
  have hp := parseInterval_getInterval dr
  have hk1 : 1 ≤ getIntervalSecs dr := getIntervalSecs_pos dr
  have hkpos : (0 : Int) < getIntervalSecs dr := by omega
  have hG : (0 : Int) < nsPerSecond := by decide
  have hkG : (0 : Int) < getIntervalSecs dr * nsPerSecond := mul_pos hkpos hG
  have hksec : Int.tdiv (getIntervalSecs dr * nsPerSecond) nsPerSecond =
      getIntervalSecs dr :=
    Int.mul_tdiv_cancel _ (by decide)
  have hser : GetTraceCounts store dr =
      some (padLoopCount (bucketCount store dr (getIntervalSecs dr))
        (getIntervalSecs dr * nsPerSecond) dr.End hkG
        (AlignToInterval dr.Start (getIntervalSecs dr * nsPerSecond))) := by
    unfold GetTraceCounts
    simp only [hp]
    rw [dif_pos hkG, hksec]
  have halle : AlignToInterval dr.Start (getIntervalSecs dr * nsPerSecond) ≤
      dr.Start := alignToInterval_le_self _ _ h0 hkpos
  by_cases hend : dr.End <
      AlignToInterval dr.Start (getIntervalSecs dr * nsPerSecond)
  · have hser2 : padLoopCount (bucketCount store dr (getIntervalSecs dr))
        (getIntervalSecs dr * nsPerSecond) dr.End hkG
        (AlignToInterval dr.Start (getIntervalSecs dr * nsPerSecond)) = [] := by
      rw [padLoopCount]
      simp [hend, GT.gt]
    have hfil : store.filter (fun r =>
        decide (dr.Start ≤ r.start_time_unix_nano) &&
        decide (r.start_time_unix_nano ≤ dr.End)) = [] := by
      apply List.filter_eq_nil_iff.mpr
      intro r _
      simp only [Bool.and_eq_true, decide_eq_true_eq, not_and]
      intro hs1 hs2
      omega
    rw [hser2] at hser
    exact ⟨[], hser, by simp [hfil]⟩
  · have hrange := padLoopCount_eq_range
      (bucketCount store dr (getIntervalSecs dr))
      (getIntervalSecs dr * nsPerSecond) dr.End hkG
      (AlignToInterval dr.Start (getIntervalSecs dr * nsPerSecond))
    rw [if_neg hend] at hrange
    rw [hrange] at hser
    refine ⟨_, hser, ?_⟩
    rw [List.map_map]
    have hTT : ∀ (n : Nat), (List.range n).map ((fun p : TimeCount => p.Value) ∘
        (fun j : Nat =>
          (⟨AlignToInterval dr.Start (getIntervalSecs dr * nsPerSecond) +
            (j : Int) * (getIntervalSecs dr * nsPerSecond),
            bucketCount store dr (getIntervalSecs dr)
              (AlignToInterval dr.Start (getIntervalSecs dr * nsPerSecond) +
                (j : Int) * (getIntervalSecs dr * nsPerSecond))⟩ : TimeCount))) =
        ((List.range n).map (fun j : Nat =>
          AlignToInterval dr.Start (getIntervalSecs dr * nsPerSecond) +
            (j : Int) * (getIntervalSecs dr * nsPerSecond))).map
          (fun ts => bucketCount store dr (getIntervalSecs dr) ts) := by
      intro n
      rw [List.map_map]
      rfl
    rw [hTT]
    apply sum_bucketCount dr (getIntervalSecs dr) _
      (padded_nodup _ _ hkG _)
    intro r hr hr1 hr2
    obtain ⟨j, hj, heq⟩ := bucket_mem_padded dr (getIntervalSecs dr) hkpos h0
      r.start_time_unix_nano hr1 hr2
    exact List.mem_map.mpr ⟨j, List.mem_range.mpr hj, heq.symm⟩

/-- Witness for C6 at a concrete two-row store. -/
theorem c6_witness :
    0 ≤ (0 : Int) ∧
    ∃ series, GetTraceCounts [rowHttpGet, rowHttpPost] ⟨0, 10000⟩ =
        some series ∧
      (series.map (fun p => p.Value)).sum = 2 := by
  refine ⟨by decide, ?_⟩
  obtain ⟨series, hs, hsum⟩ :=
    c6_count_series_sums_to_N [rowHttpGet, rowHttpPost] ⟨0, 10000⟩ (by decide)
  refine ⟨series, hs, ?_⟩
  rw [hsum]
  decide

/-- Witness for C3 at the concrete range [0 s, 30 s] with a 1-minute
interval. -/
theorem c3_witness :
    ParseInterval "1 minute" = some 60000000000 ∧
    ∃ series, PadQueryResult [] "1 minute" ⟨0, 30 * nsPerSecond⟩ =
      some series := by
  refine ⟨by decide, ?_⟩
  obtain ⟨series, hs, _⟩ := c3_amended_padding_spec [] "1 minute" 60000000000
    ⟨0, 30 * nsPerSecond⟩ (by decide) (by decide) (by decide)
  exact ⟨series, hs⟩
